import Mathlib

/-!
Shallow embedding of the FastPyNUTS point-location engine
(`fastpynuts/fastpynuts.py` together with `fastpynuts/utils.py`).

Modelling conventions:
* Coordinates and buffer distances are embedded as `Int` (the source uses
  Python floats; every branch of the embedded code depends only on order
  comparisons and on zero-tests, never on density or rounding).
* Python strings are sequences of code points; identifiers are embedded
  as `List Char` (`PyStr`), with `dropLast` for `id[:-1]`, `length` for
  `len`, and `lexLtB` for Python's lexicographic `<`.
* The external collaborators (shapely geometries, the `rtree` spatial
  index, `treelib` trees) are embedded at their interface boundary:
  a geometry is an abstract containment test plus bounds, parameterized
  by the construction-time dilation buffer; an R-tree query for a point
  returns exactly the inserted bounding boxes containing the point
  (inclusively on all edges), modelled in insertion order; a `treelib`
  tree is a list of nodes in creation order, `create_node` failing on a
  duplicate identifier or an absent parent exactly as `treelib` raises.
-/

namespace FastPyNUTS

/-- Python string: a sequence of code points. -/
abbrev PyStr := List Char

/-- Conversion from a Lean string literal to its code-point sequence. -/
def pystr (s : String) : PyStr := s.data

/-- Code-point comparison of two characters, the base case of Python's
string ordering. -/
def charLtB (a b : Char) : Bool := a.toNat < b.toNat

/-- Python's `<` on strings: lexicographic comparison by code point. -/
def lexLtB : PyStr → PyStr → Bool
  | [], [] => false
  | [], _ :: _ => true
  | _ :: _, [] => false
  | a :: as, b :: bs => charLtB a b || (a == b && lexLtB as bs)

/-- Axis-aligned bounding box `(xmin, ymin, xmax, ymax)`, the value of
shapely `geom.bounds` stored in `NUTSregion.bbox`. -/
structure Box where
  xmin : Int
  ymin : Int
  xmax : Int
  ymax : Int
deriving DecidableEq

/-- Inclusive point-in-bbox test: the test performed (identically) by the
R-tree on an inserted bbox for the degenerate query rectangle
`(lon, lat, lon, lat)`, and spelled out literally in `_find_bbox`. -/
def Box.containsPoint (b : Box) (lon lat : Int) : Bool :=
  decide (b.xmin ≤ lon) && decide (lon ≤ b.xmax) &&
  decide (b.ymin ≤ lat) && decide (lat ≤ b.ymax)

/-- External geometry adapter (shapely, reached through
`utils.geometry2polygon`): an opaque boundary, parameterized by the
dilation buffer applied at region construction. `containsB buf lon lat`
embeds `shapely.intersects_xy` on the geometry dilated by `buf`;
`boundsB buf` embeds its `bounds`. Buffer `0` stands for the undilated
geometry. -/
structure Geometry where
  containsB : Int → Int → Int → Bool
  boundsB : Int → Box

/-- One GeoJSON feature as consumed by `NUTSregion.__init__`: its declared
geometry type string, its feature-level `id`, its properties
`NUTS_ID` and `LEVL_CODE`, and the abstract geometry that
`geometry2polygon` yields for it. -/
structure Feature where
  geomType : PyStr
  fid : PyStr
  nutsId : PyStr
  levlCode : Nat
  geom : Geometry

/-- The `NUTSregion` value: identifier (`properties["NUTS_ID"]`), level
(`properties["LEVL_CODE"]`), the (possibly buffered) geometry's
point-containment test, and its bounding box. -/
structure NUTSregion where
  id : PyStr
  level : Nat
  geomContains : Int → Int → Bool
  bbox : Box

/-- Region construction, `NUTSregion.__init__`: asserts the geometry type
is `Polygon` or `MultiPolygon`, asserts the feature id equals the
`NUTS_ID` property, then builds the geometry, dilates it when the
buffer is truthy (nonzero), and takes its bounds as the bbox. -/
def mkNUTSregion (feature : Feature) (buffer : Int) : Except String NUTSregion :=
  if !(feature.geomType == pystr "Polygon" || feature.geomType == pystr "MultiPolygon") then
    .error "AssertionError: geometry type must be Polygon or MultiPolygon"
  else if !(feature.fid == feature.nutsId) then
    .error "AssertionError: feature id differs from NUTS_ID"
  else
    .ok { id := feature.nutsId
          level := feature.levlCode
          geomContains := feature.geom.containsB (if buffer != 0 then buffer else 0)
          bbox := feature.geom.boundsB (if buffer != 0 then buffer else 0) }

/-- Region equality, `NUTSregion.__eq__`: by identifier alone. -/
def NUTSregion.eqB (a b : NUTSregion) : Bool := a.id == b.id

/-- Region strict order, `NUTSregion.__lt__`: by `(level, id)`. -/
def NUTSregion.ltB (a b : NUTSregion) : Bool :=
  decide (a.level < b.level) || (a.level == b.level && lexLtB a.id b.id)

/-- The non-strict comparison Python's sort establishes between
consecutive elements: `a` may precede `b` when `not (b < a)`. -/
def pySortRel (a b : NUTSregion) : Prop := NUTSregion.ltB b a = false

instance : DecidableRel pySortRel := fun a b => instDecidableEqBool (NUTSregion.ltB b a) false

/-- Python `sorted` on regions: a sort whose output is pairwise
`pySortRel`, i.e. no element strictly `__lt__`-precedes its
predecessor. -/
def sortRegions (l : List NUTSregion) : List NUTSregion :=
  List.insertionSort pySortRel l

/-- Helper for `npUnique`: keep an element exactly when it differs
(under `__eq__`) from its immediate predecessor in the sorted array,
as `numpy.unique` flags `a[1:] != a[:-1]`. -/
def uniqueAux (prev : NUTSregion) : List NUTSregion → List NUTSregion
  | [] => []
  | b :: rest => if NUTSregion.eqB b prev then uniqueAux b rest else b :: uniqueAux b rest

/-- Embedding of `np.unique(validated).tolist()` on an object array of
regions: sort by `__lt__`, then drop each element equal (under
`__eq__`) to its immediate predecessor. -/
def npUnique (l : List NUTSregion) : List NUTSregion :=
  match sortRegions l with
  | [] => []
  | a :: rest => a :: uniqueAux a rest

/-- Python membership `x in l` on a region list: `any` of `__eq__`,
hence a test on identifiers only. -/
def pyIn (x : NUTSregion) (l : List NUTSregion) : Bool :=
  l.any (fun h => NUTSregion.eqB h x)

/-- One `treelib` node: its identifier, its parent's identifier, and its
payload (`data`); the synthetic root carries no payload. -/
structure TreeNode where
  ident : PyStr
  parent : PyStr
  data : Option NUTSregion

/-- Node lookup by identifier (`treelib` keeps nodes in a dict;
identifiers are unique by construction). -/
def findNode (tree : List TreeNode) (id : PyStr) : Option TreeNode :=
  tree.find? (fun n => n.ident == id)

/-- Children of a node, in creation order, as `treelib` `tree.children`. -/
def treeChildren (tree : List TreeNode) (id : PyStr) : List TreeNode :=
  tree.filter (fun n => n.parent == id)

/-- The synthetic root created by `tree.create_node(tag="NUTS",
identifier="root")`; its parent field is unused (`treelib` stores
`None` there, embedded as the empty identifier). -/
def rootNode : TreeNode := { ident := pystr "root", parent := [], data := none }

/-- Embedding of `treelib` `create_node` under an existing parent: raises
`DuplicatedNodeIdError` when the identifier is already present, then
`NodeIDAbsentError` when the parent identifier is absent; otherwise
appends the node. -/
def createNode (tree : List TreeNode) (ident parent : PyStr) (data : Option NUTSregion) :
    Except String (List TreeNode) :=
  if tree.any (fun n => n.ident == ident) then
    .error "DuplicatedNodeIdError"
  else if !(tree.any (fun n => n.ident == parent)) then
    .error "NodeIDAbsentError"
  else
    .ok (tree ++ [{ ident := ident, parent := parent, data := data }])

/-- The node `_construct_tree` creates for one region: regions at
`min_level` attach to the root, every other region attaches under the
node whose identifier is its own id with the last character
stripped. -/
def treeNodeFor (min_level : Nat) (r : NUTSregion) : TreeNode :=
  { ident := r.id
    parent := if r.level == min_level then pystr "root" else r.id.dropLast
    data := some r }

/-- Loop body of `NUTSfinder._construct_tree`: regions at `min_level`
attach to the root, every other region attaches under the node whose
identifier is its own id with the last character stripped. -/
def constructTreeAux (min_level : Nat) :
    List TreeNode → List NUTSregion → Except String (List TreeNode)
  | tree, [] => .ok tree
  | tree, r :: rs =>
    let parent := if r.level == min_level then pystr "root" else r.id.dropLast
    match createNode tree r.id parent (some r) with
    | .error e => .error e
    | .ok t => constructTreeAux min_level t rs

/-- Embedding of `NUTSfinder._construct_tree`. -/
def constructTree (min_level : Nat) (regions : List NUTSregion) :
    Except String (List TreeNode) :=
  constructTreeAux min_level [rootNode] regions

/-- One step of the `_get_parents` walk: `self.tree.parent(current_id).data`.
Returns `none` when the current node or its parent node is missing
(the source raises there; the walk never reaches that case on a tree
built by `_construct_tree`). -/
def treeParentData (tree : List TreeNode) (cur : PyStr) : Option (Option NUTSregion) :=
  match findNode tree cur with
  | none => none
  | some n =>
    match findNode tree n.parent with
    | none => none
    | some p => some p.data

/-- The `while parent_region := self.tree.parent(current_id).data` loop of
`_get_parents`, with explicit fuel: on a tree built by
`_construct_tree` every step strips one character off the current
identifier, so `id.length + 1` steps always suffice; the fuel only
matters on malformed trees, on which the source loop would not
terminate or would raise. -/
def getParentsAux (tree : List TreeNode) : Nat → PyStr → List NUTSregion
  | 0, _ => []
  | fuel + 1, cur =>
    match treeParentData tree cur with
    | some (some r) => r :: getParentsAux tree fuel r.id
    | _ => []

/-- Embedding of `NUTSfinder._get_parents`: the chain of ancestor regions
of `id`, immediate parent first, ending below the synthetic root. -/
def getParents (tree : List TreeNode) (id : PyStr) : List NUTSregion :=
  getParentsAux tree (id.length + 1) id

/-- The finder state after `NUTSfinder.__init__`: configuration plus the
sorted region list and the hierarchy tree. The flat R-tree holds
exactly the regions' bboxes keyed by list position, so it is embedded
implicitly by `candidates_rtree` below. -/
structure NUTSfinder where
  min_level : Nat
  max_level : Nat
  buffer : Int
  regions : List NUTSregion
  tree : List TreeNode

/-- Loop of `NUTSfinder._validate_candidate_set` over the `max_level`
candidates, carrying the `validated` accumulator: a candidate whose
full parent chain is present among the hits (membership under
`__eq__`) and whose geometry contains the point contributes its
parents followed by itself; with a falsy (zero) buffer the first such
chain is returned immediately, otherwise the loop finishes and the
accumulator is deduplicated by `np.unique`. -/
def validateAux (f : NUTSfinder) (lon lat : Int) (hits : List NUTSregion) :
    List NUTSregion → List NUTSregion → List NUTSregion
  | [], validated => npUnique validated
  | region :: rest, validated =>
    let parents := getParents f.tree region.id
    if parents.all (fun p => pyIn p hits) && region.geomContains lon lat then
      if f.buffer == 0 then validated ++ parents ++ [region]
      else validateAux f lon lat hits rest (validated ++ parents ++ [region])
    else validateAux f lon lat hits rest validated

/-- Embedding of `NUTSfinder._validate_candidate_set`. -/
def NUTSfinder.validate_candidate_set (f : NUTSfinder) (lon lat : Int)
    (hits : List NUTSregion) : List NUTSregion :=
  validateAux f lon lat hits (hits.filter (fun hit => hit.level == f.max_level)) []

/-- Embedding of `NUTSfinderBenchmark._find_poly` (also the
`_maybe_validate` validation method used by the tree strategies):
keep every region whose exact geometry contains the point. -/
def find_poly (lon lat : Int) (regions : List NUTSregion) : List NUTSregion :=
  regions.filter (fun region => region.geomContains lon lat)

/-- The two validation methods `_maybe_validate` is invoked with
(`validation_method` is a method-name string in the source). -/
inductive ValidationMethod
  | validate_candidate_set
  | find_poly

/-- Embedding of `NUTSfinder._maybe_validate`: the expected hit count
defaults to `max_level - min_level + 1` whenever the argument is
absent or falsy (Python `expected_hits or ...`); when the caller
asserts a valid point and the raw hit count equals the expectation the
hits are returned as-is, otherwise the selected validation method
runs. -/
def NUTSfinder.maybe_validate (f : NUTSfinder) (lon lat : Int) (hits : List NUTSregion)
    (valid_point : Bool) (expected_hits : Option Nat)
    (validation_method : ValidationMethod) : List NUTSregion :=
  let expected :=
    match expected_hits with
    | some n => if n != 0 then n else f.max_level - f.min_level + 1
    | none => f.max_level - f.min_level + 1
  if valid_point && (hits.length == expected) then hits
  else
    match validation_method with
    | .validate_candidate_set => f.validate_candidate_set lon lat hits
    | .find_poly => find_poly lon lat hits

/-- Embedding of `NUTSfinder._candidates_rtree`: the flat R-tree holds
each region's bbox keyed by its list index, and an intersection query
with the degenerate rectangle `(lon, lat, lon, lat)` returns exactly
the indices whose bbox contains the point. The library guarantees
only this set, not an iteration order; this definition fixes
insertion order as one concrete representative, and every property
that is sensitive to the candidate order (C1) is additionally
quantified over all permutations of this list, covering every order
the library could return. -/
def NUTSfinder.candidates_rtree (f : NUTSfinder) (lon lat : Int) : List NUTSregion :=
  f.regions.filter (fun region => region.bbox.containsPoint lon lat)

/-- Embedding of `NUTSfinder._find_rtree`. -/
def NUTSfinder.find_rtree (f : NUTSfinder) (lon lat : Int) (valid_point : Bool) :
    List NUTSregion :=
  f.maybe_validate lon lat (f.candidates_rtree lon lat) valid_point none
    .validate_candidate_set

/-- Embedding of `NUTSfinder.find`: the flat R-tree strategy followed by
`sorted`. -/
def NUTSfinder.find (f : NUTSfinder) (lon lat : Int) (valid_point : Bool) :
    List NUTSregion :=
  sortRegions (f.find_rtree lon lat valid_point)

/-- Embedding of `NUTSfinder._filter_regions`: keep the features whose
level lies in `min_level..max_level` and construct a region from each
(any assertion failure propagates). -/
def filter_regions (buffer : Int) (min_level max_level : Nat) (features : List Feature) :
    Except String (List NUTSregion) :=
  (features.filter (fun ft =>
      decide (min_level ≤ ft.levlCode) && decide (ft.levlCode ≤ max_level))).mapM
    (fun ft => mkNUTSregion ft buffer)

/-- Embedding of `NUTSfinder._load_regions`: filter, construct, sort. -/
def load_regions (buffer : Int) (min_level max_level : Nat) (features : List Feature) :
    Except String (List NUTSregion) :=
  match filter_regions buffer min_level max_level features with
  | .error e => .error e
  | .ok regs => .ok (sortRegions regs)

/-- Embedding of `NUTSfinder.__init__` from an already parsed GeoJSON
feature list: asserts `min_level <= max_level`, loads the regions,
builds the hierarchy tree (and the flat R-tree, which is implicit
here). Filename parsing only recovers scale, year and CRS metadata and
is outside the embedded state. -/
def mkNUTSfinder (features : List Feature) (buffer : Int) (min_level max_level : Nat) :
    Except String NUTSfinder :=
  if !(decide (min_level ≤ max_level)) then
    .error "AssertionError: min_level must not exceed max_level"
  else
    match load_regions buffer min_level max_level features with
    | .error e => .error e
    | .ok regions =>
      match constructTree min_level regions with
      | .error e => .error e
      | .ok tree =>
        .ok { min_level := min_level, max_level := max_level, buffer := buffer,
              regions := regions, tree := tree }

/-- Embedding of `NUTSfinderBenchmark._find_bbox`: the sequential
point-in-bbox scan (the same inclusive comparisons, written out in the
source) followed by `_maybe_validate`. -/
def find_bbox (f : NUTSfinder) (lon lat : Int) (regions : List NUTSregion)
    (valid_point : Bool) : List NUTSregion :=
  let hits := regions.filter (fun region =>
    decide (region.bbox.xmin ≤ lon) && decide (lon ≤ region.bbox.xmax) &&
    decide (region.bbox.ymin ≤ lat) && decide (lat ≤ region.bbox.ymax))
  f.maybe_validate lon lat hits valid_point none .validate_candidate_set

/-- The `while children := self.tree.children(current_node)` loop of
`NUTSfinderBenchmark._find_tree`, with explicit fuel: each step
descends into a child, so `tree.length + 1` steps always suffice; the
fuel only matters on malformed (cyclic) trees. `children.filterMap
data` lists the child payloads, which are all present on a
constructed tree. -/
def find_tree_aux (f : NUTSfinder) (lon lat : Int) (valid_point : Bool) :
    Nat → PyStr → List NUTSregion → Except String (List NUTSregion)
  | 0, _, out => .ok out
  | fuel + 1, current_node, out =>
    let children := treeChildren f.tree current_node
    if children.isEmpty then .ok out
    else
      let hits := f.maybe_validate lon lat (children.filterMap (fun ch => ch.data))
        valid_point (some 1) .find_poly
      match hits with
      | h :: _ => find_tree_aux f lon lat valid_point fuel h.id (out ++ hits)
      | [] =>
        if valid_point then
          .error "ValueError: could not locate point despite valid_point"
        else
          .ok (out ++ hits)

/-- Embedding of `NUTSfinderBenchmark._find_tree`. -/
def find_tree (f : NUTSfinder) (lon lat : Int) (valid_point : Bool) :
    Except String (List NUTSregion) :=
  find_tree_aux f lon lat valid_point (f.tree.length + 1) (pystr "root") []

/-- The benchmark finder: the base finder plus the per-node-R-tree
hierarchy built by `_construct_tree_rtree`. That construction rebuilds
the same node structure (note: attaching to the root on `level == 0`,
not `level == min_level`) and then stores at each node an R-tree over
the bboxes of the node's child regions, keyed by each child's position
in `self.regions` as resolved by `list.index` (first region equal
under `__eq__`); the per-node R-trees are embedded implicitly by
keeping the child regions as node payloads. -/
structure NUTSfinderBenchmark extends NUTSfinder where
  tree_rtree : List TreeNode

/-- Embedding of `NUTSfinderBenchmark.__init__` (the embedded parts:
object-embedding index variants only duplicate the candidate sets and
are not separately modelled). -/
def mkNUTSfinderBenchmark (features : List Feature) (buffer : Int)
    (min_level max_level : Nat) : Except String NUTSfinderBenchmark :=
  match mkNUTSfinder features buffer min_level max_level with
  | .error e => .error e
  | .ok f =>
    match constructTree 0 f.regions with
    | .error e => .error e
    | .ok tr => .ok { toNUTSfinder := f, tree_rtree := tr }

/-- Loop of `NUTSfinderBenchmark._find_tree_rtree`: like `_find_tree`,
but at each node the candidate children are pre-filtered by the
node's R-tree (a bbox test) and resolved back through `self.regions`
by index, before `_maybe_validate` runs the exact `_find_poly`
check. -/
def find_tree_rtree_aux (b : NUTSfinderBenchmark) (lon lat : Int) (valid_point : Bool) :
    Nat → PyStr → List NUTSregion → Except String (List NUTSregion)
  | 0, _, out => .ok out
  | fuel + 1, current_node, out =>
    let children := treeChildren b.tree_rtree current_node
    if children.isEmpty then .ok out
    else
      let cand := (children.filterMap (fun ch => ch.data)).filter
        (fun r => r.bbox.containsPoint lon lat)
      let resolved := cand.filterMap
        (fun c => b.toNUTSfinder.regions.find? (fun r => NUTSregion.eqB r c))
      let hits := b.toNUTSfinder.maybe_validate lon lat resolved valid_point (some 1)
        .find_poly
      match hits with
      | h :: _ => find_tree_rtree_aux b lon lat valid_point fuel h.id (out ++ hits)
      | [] =>
        if valid_point then
          .error "ValueError: could not locate point despite valid_point"
        else
          .ok (out ++ hits)

/-- Embedding of `NUTSfinderBenchmark._find_tree_rtree`. -/
def find_tree_rtree (b : NUTSfinderBenchmark) (lon lat : Int) (valid_point : Bool) :
    Except String (List NUTSregion) :=
  find_tree_rtree_aux b lon lat valid_point (b.tree_rtree.length + 1) (pystr "root") []

/-- The candidate-generation strategies dispatched by name in
`NUTSfinderBenchmark.find` (a closed enumeration here). -/
inductive FindMethod
  | tree
  | rtree
  | bbox
  | poly
  | tree_rtree

/-- Embedding of `NUTSfinderBenchmark.find`: dispatch to the selected
strategy, sort the results; an exception raised by a tree strategy
propagates before any sorting. -/
def NUTSfinderBenchmark.find (b : NUTSfinderBenchmark) (lon lat : Int)
    (method : FindMethod) (valid_point : Bool) : Except String (List NUTSregion) :=
  match method with
  | .tree =>
    match find_tree b.toNUTSfinder lon lat valid_point with
    | .error e => .error e
    | .ok results => .ok (sortRegions results)
  | .rtree => .ok (sortRegions (b.toNUTSfinder.find_rtree lon lat valid_point))
  | .bbox =>
    .ok (sortRegions (find_bbox b.toNUTSfinder lon lat b.toNUTSfinder.regions valid_point))
  | .poly => .ok (sortRegions (find_poly lon lat b.toNUTSfinder.regions))
  | .tree_rtree =>
    match find_tree_rtree b lon lat valid_point with
    | .error e => .error e
    | .ok results => .ok (sortRegions results)

/-! Concrete fixtures: small constructed finders used by counterexamples
and witnesses. Geometries are either the exact bbox test
(`geomFull`) or empty (`geomEmpty`), which is all the abstract
geometry interface distinguishes. -/

/-- Geometry whose containment test is exactly its bbox test (buffer
ignored). -/
def geomFull (b : Box) : Geometry :=
  { containsB := fun _ lon lat => b.containsPoint lon lat, boundsB := fun _ => b }

/-- Geometry containing no point at all, with the given bounds (buffer
ignored). -/
def geomEmpty (b : Box) : Geometry :=
  { containsB := fun _ _ _ => false, boundsB := fun _ => b }

/-- The region that `mkNUTSregion` yields for a well-formed feature at a
falsy (zero) buffer. -/
def regOf (ft : Feature) : NUTSregion :=
  { id := ft.nutsId, level := ft.levlCode
    geomContains := ft.geom.containsB 0, bbox := ft.geom.boundsB 0 }

/-- Main query box used by the fixtures. -/
def boxMain : Box := { xmin := 0, ymin := 0, xmax := 10, ymax := 10 }

/-- A far-away box that no fixture query point touches. -/
def boxFar : Box := { xmin := 100, ymin := 100, xmax := 110, ymax := 110 }

/-- Helper: a polygon feature with consistent identifiers. -/
def mkFeat (id : String) (level : Nat) (g : Geometry) : Feature :=
  { geomType := pystr "Polygon", fid := pystr id, nutsId := pystr id,
    levlCode := level, geom := g }

/-- Helper: the tree node `_construct_tree` creates for a region attached
to the root. -/
def nodeRoot (r : NUTSregion) : TreeNode :=
  { ident := r.id, parent := pystr "root", data := some r }

/-- Helper: the tree node `_construct_tree` creates for a region attached
under its id-prefix parent. -/
def nodeSub (r : NUTSregion) : TreeNode :=
  { ident := r.id, parent := r.id.dropLast, data := some r }

/-- Fixture 1: one level-0 region `A` covering `boxMain` and one level-1
child `A1` with the same bbox but empty geometry. -/
def fA : Feature := mkFeat "A" 0 (geomFull boxMain)

/-- Fixture 1, level-1 child with empty geometry. -/
def fA1 : Feature := mkFeat "A1" 1 (geomEmpty boxMain)

/-- The finder `NUTSfinder(... buffer_geoms=0, min_level=0, max_level=1)`
constructs from fixture 1. -/
def cf1 : NUTSfinder :=
  { min_level := 0, max_level := 1, buffer := 0
    regions := [regOf fA, regOf fA1]
    tree := [rootNode, nodeRoot (regOf fA), nodeSub (regOf fA1)] }

/-- The benchmark finder over fixture 1 (its `tree_rtree` has the same
node structure since `min_level = 0`). -/
def cb1 : NUTSfinderBenchmark :=
  { toNUTSfinder := cf1, tree_rtree := cf1.tree }

/-- Fixture 3: two level-0 regions `A` (covering `boxMain`) and `X`
(far away), a level-1 child `A1` of `A` with empty geometry, and a
level-1 child `X1` of `X` whose bbox nevertheless covers `boxMain`. -/
def fA3 : Feature := mkFeat "A" 0 (geomFull boxMain)

/-- Fixture 3, far-away level-0 region `X`. -/
def fX3 : Feature := mkFeat "X" 0 (geomFull boxFar)

/-- Fixture 3, child of `A` with empty geometry. -/
def fA13 : Feature := mkFeat "A1" 1 (geomEmpty boxMain)

/-- Fixture 3, child of `X` whose bbox covers the query point. -/
def fX13 : Feature := mkFeat "X1" 1 (geomFull boxMain)

/-- The finder constructed from fixture 3 (buffer 0, levels 0..1). -/
def cf3 : NUTSfinder :=
  { min_level := 0, max_level := 1, buffer := 0
    regions := [regOf fA3, regOf fX3, regOf fA13, regOf fX13]
    tree := [rootNode, nodeRoot (regOf fA3), nodeRoot (regOf fX3),
             nodeSub (regOf fA13), nodeSub (regOf fX13)] }

/-- Fixture 4: level-0 regions `A` (covering `boxMain`) and `X` (far
away), plus a level-1 child `X1` of `X` whose bbox covers `boxMain`
but whose geometry is empty. -/
def fA4 : Feature := mkFeat "A" 0 (geomFull boxMain)

/-- Fixture 4, far-away level-0 region. -/
def fX4 : Feature := mkFeat "X" 0 (geomFull boxFar)

/-- Fixture 4, child of `X` with a `boxMain` bbox and empty geometry. -/
def fX14 : Feature := mkFeat "X1" 1 (geomEmpty boxMain)

/-- The finder constructed from fixture 4 (buffer 0, levels 0..1). -/
def cf4 : NUTSfinder :=
  { min_level := 0, max_level := 1, buffer := 0
    regions := [regOf fA4, regOf fX4, regOf fX14]
    tree := [rootNode, nodeRoot (regOf fA4), nodeRoot (regOf fX4),
             nodeSub (regOf fX14)] }

/-- Fixture W: a full chain `A`, `A1`, both genuinely containing the
query point. -/
def fAw : Feature := mkFeat "A" 0 (geomFull boxMain)

/-- Fixture W, level-1 child containing the query point. -/
def fA1w : Feature := mkFeat "A1" 1 (geomFull boxMain)

/-- The finder constructed from fixture W (buffer 0, levels 0..1). -/
def cfW : NUTSfinder :=
  { min_level := 0, max_level := 1, buffer := 0
    regions := [regOf fAw, regOf fA1w]
    tree := [rootNode, nodeRoot (regOf fAw), nodeSub (regOf fA1w)] }

/-- Fixture W at buffer 1: same features, truthy buffer (the fixture
geometries ignore the dilation parameter). -/
def regOfB (ft : Feature) (buffer : Int) : NUTSregion :=
  { id := ft.nutsId, level := ft.levlCode
    geomContains := ft.geom.containsB buffer, bbox := ft.geom.boundsB buffer }

/-- The finder constructed from fixture W with `buffer_geoms = 1`. -/
def cfW1 : NUTSfinder :=
  { min_level := 0, max_level := 1, buffer := 1
    regions := [regOfB fAw 1, regOfB fA1w 1]
    tree := [rootNode, nodeRoot (regOfB fAw 1), nodeSub (regOfB fA1w 1)] }

/-- Fixture 7: a single level-1 region whose computed parent id `A` names
no region. -/
def fOrph : Feature := mkFeat "A1" 1 (geomFull boxMain)

/-- Fixture 8: a feature with an unsupported geometry type. -/
def fBadT : Feature :=
  { geomType := pystr "Point", fid := pystr "B", nutsId := pystr "B",
    levlCode := 0, geom := geomFull boxMain }

/-- Fixture 8: a feature whose declared id differs from its `NUTS_ID`
property. -/
def fBadId : Feature :=
  { geomType := pystr "Polygon", fid := pystr "B", nutsId := pystr "C",
    levlCode := 0, geom := geomFull boxMain }

/-- Fixture 10: two regions sharing the identifier `Z` at different
levels, with different geometry and bbox. -/
def regZ0 : NUTSregion :=
  { id := pystr "Z", level := 0, geomContains := fun _ _ => true, bbox := boxMain }

/-- Fixture 10, second region with the same identifier. -/
def regZ1 : NUTSregion :=
  { id := pystr "Z", level := 1, geomContains := fun _ _ => false, bbox := boxFar }

/-- Helper for reasoning about `_validate_candidate_set`: the loop's
acceptance test for one `max_level` candidate (its full parent chain
present among the hits, and its geometry containing the point). -/
def confirmedB (f : NUTSfinder) (lon lat : Int) (hits : List NUTSregion)
    (region : NUTSregion) : Bool :=
  (getParents f.tree region.id).all (fun p => pyIn p hits) && region.geomContains lon lat

/-- Helper: the confirmed chains of `_validate_candidate_set` (each a
parent chain followed by its `max_level` candidate), in candidate
order. -/
def confirmedChains (f : NUTSfinder) (lon lat : Int) (hits : List NUTSregion) :
    List (List NUTSregion) :=
  ((hits.filter (fun hit => hit.level == f.max_level)).filter
      (confirmedB f lon lat hits)).map
    (fun m => getParents f.tree m.id ++ [m])

/-- Modelled from the spec, section 4.4 step 2: the hierarchy-consistency
filter — among candidates at `max_level`, keep only those all of
whose ancestors are also present in the candidate set, accumulate the
surviving regions with their ancestors, and deduplicate the union.
The source has no such standalone phase (it is fused with the exact
geometry test inside `_validate_candidate_set`); this definition is
used to state C3 in the spec's own terms. -/
def specHierarchyFilter (f : NUTSfinder) (hits : List NUTSregion) : List NUTSregion :=
  npUnique (((hits.filter (fun hit => hit.level == f.max_level)).filter
      (fun m => (getParents f.tree m.id).all (fun p => pyIn p hits))).map
    (fun m => getParents f.tree m.id ++ [m])).flatten

/-- Well-formedness invariant of every tree `_construct_tree` builds:
the synthetic root is present, node identifiers are unique, each
payload's id is its node's identifier, only the root lacks a payload,
and each payload-carrying node hangs off the root or off its
identifier's `dropLast`. -/
def TreeWF (tree : List TreeNode) : Prop :=
  rootNode ∈ tree ∧
  (∀ m ∈ tree, ∀ n ∈ tree, m.ident = n.ident → m = n) ∧
  (∀ n ∈ tree, ∀ r, n.data = some r → r.id = n.ident) ∧
  (∀ n ∈ tree, n.data = none → n.ident = pystr "root") ∧
  (∀ n ∈ tree, ∀ r, n.data = some r →
    n.parent = pystr "root" ∨ (n.ident ≠ [] ∧ n.parent = n.ident.dropLast))

/-! Ordering lemmas: `__lt__` is a strict weak order, so Python's sort
yields a pairwise-`pySortRel` list. -/

lemma charLtB_irrefl (a : Char) : charLtB a a = false := by
  simp [charLtB]

lemma charLtB_trans {a b c : Char} (h1 : charLtB a b = true) (h2 : charLtB b c = true) :
    charLtB a c = true := by
  simp only [charLtB, decide_eq_true_eq] at *
  omega

lemma charLtB_trichotomy (a b : Char) : charLtB a b = true ∨ a = b ∨ charLtB b a = true := by
  simp only [charLtB, decide_eq_true_eq]
  rcases Nat.lt_trichotomy a.toNat b.toNat with h | h | h
  · exact Or.inl h
  · exact Or.inr (Or.inl (Char.ext (UInt32.toNat.inj h)))
  · exact Or.inr (Or.inr h)

lemma lexLtB_irrefl : ∀ x : PyStr, lexLtB x x = false
  | [] => rfl
  | a :: as => by simp [lexLtB, charLtB_irrefl, lexLtB_irrefl as]

lemma lexLtB_asymm : ∀ x y : PyStr, lexLtB x y = true → lexLtB y x = true → False
  | [], [], h1, _ => by simp [lexLtB] at h1
  | [], _ :: _, _, h2 => by simp [lexLtB] at h2
  | _ :: _, [], h1, _ => by simp [lexLtB] at h1
  | a :: as, b :: bs, h1, h2 => by
    simp only [lexLtB, Bool.or_eq_true, Bool.and_eq_true, beq_iff_eq] at h1 h2
    rcases h1 with h1 | ⟨e1, h1⟩
    · rcases h2 with h2 | ⟨e2, h2⟩
      · exact absurd (charLtB_trans h1 h2) (by simp [charLtB_irrefl])
      · subst e2
        simp [charLtB_irrefl] at h1
    · subst e1
      rcases h2 with h2 | ⟨_, h2⟩
      · simp [charLtB_irrefl] at h2
      · exact lexLtB_asymm as bs h1 h2

lemma lexLtB_trans : ∀ x y z : PyStr,
    lexLtB x y = true → lexLtB y z = true → lexLtB x z = true
  | [], [], _, h1, _ => by simp [lexLtB] at h1
  | _, _ :: _, [], _, h2 => by simp [lexLtB] at h2
  | [], _ :: _, _ :: _, _, _ => rfl
  | _ :: _, [], _, h1, _ => by simp [lexLtB] at h1
  | a :: as, b :: bs, c :: cs, h1, h2 => by
    simp only [lexLtB, Bool.or_eq_true, Bool.and_eq_true, beq_iff_eq] at h1 h2 ⊢
    rcases h1 with h1 | ⟨e1, h1⟩
    · rcases h2 with h2 | ⟨e2, h2⟩
      · exact Or.inl (charLtB_trans h1 h2)
      · subst e2; exact Or.inl h1
    · subst e1
      rcases h2 with h2 | ⟨e2, h2⟩
      · exact Or.inl h2
      · subst e2; exact Or.inr ⟨rfl, lexLtB_trans as bs cs h1 h2⟩

lemma lexLtB_trichotomy : ∀ x y : PyStr, lexLtB x y = true ∨ x = y ∨ lexLtB y x = true
  | [], [] => Or.inr (Or.inl rfl)
  | [], _ :: _ => Or.inl rfl
  | _ :: _, [] => Or.inr (Or.inr rfl)
  | a :: as, b :: bs => by
    rcases charLtB_trichotomy a b with h | h | h
    · left; simp [lexLtB, h]
    · subst h
      rcases lexLtB_trichotomy as bs with h | h | h
      · left; simp [lexLtB, h]
      · right; left; rw [h]
      · right; right; simp [lexLtB, h]
    · right; right; simp [lexLtB, h]

/-- Propositional form of `NUTSregion.__lt__`. -/
def regionLtP (a b : NUTSregion) : Prop :=
  a.level < b.level ∨ (a.level = b.level ∧ lexLtB a.id b.id = true)

lemma ltB_iff (a b : NUTSregion) : NUTSregion.ltB a b = true ↔ regionLtP a b := by
  simp [NUTSregion.ltB, regionLtP]

lemma ltB_false_iff (a b : NUTSregion) :
    NUTSregion.ltB a b = false ↔ ¬ regionLtP a b := by
  rw [← ltB_iff]
  cases NUTSregion.ltB a b <;> simp

lemma regionLtP_asymm {a b : NUTSregion} (h1 : regionLtP a b) (h2 : regionLtP b a) :
    False := by
  rcases h1 with h1 | ⟨e1, h1⟩ <;> rcases h2 with h2 | ⟨e2, h2⟩
  · omega
  · omega
  · omega
  · exact lexLtB_asymm _ _ h1 h2

lemma regionLtP_neg_trans {a b c : NUTSregion} (hba : ¬ regionLtP b a)
    (hcb : ¬ regionLtP c b) : ¬ regionLtP c a := by
  unfold regionLtP at *
  push_neg at hba hcb
  rintro (hca | ⟨heq, hlex⟩)
  · omega
  · have hb : b.level = a.level := by omega
    have hc : c.level = b.level := by omega
    have h1 := hba.2 hb
    have h2 := hcb.2 hc
    have tab : lexLtB a.id b.id = true ∨ a.id = b.id := by
      rcases lexLtB_trichotomy a.id b.id with h | h | h
      · exact Or.inl h
      · exact Or.inr h
      · exact absurd h h1
    have tbc : lexLtB b.id c.id = true ∨ b.id = c.id := by
      rcases lexLtB_trichotomy b.id c.id with h | h | h
      · exact Or.inl h
      · exact Or.inr h
      · exact absurd h h2
    rcases tab with hab | hab <;> rcases tbc with hbc | hbc
    · exact lexLtB_asymm _ _ (lexLtB_trans _ _ _ hab hbc) hlex
    · rw [← hbc] at hlex
      exact lexLtB_asymm _ _ hab hlex
    · rw [hab] at hlex
      exact lexLtB_asymm _ _ hbc hlex
    · rw [← hbc, ← hab] at hlex
      simp [lexLtB_irrefl] at hlex

instance : IsTotal NUTSregion pySortRel := by
  constructor
  intro a b
  unfold pySortRel
  rcases h : NUTSregion.ltB b a with _ | _
  · exact Or.inl rfl
  · right
    rw [ltB_false_iff]
    rw [ltB_iff] at h
    intro hc
    exact regionLtP_asymm h hc

instance : IsTrans NUTSregion pySortRel := by
  constructor
  intro a b c hab hbc
  unfold pySortRel at *
  rw [ltB_false_iff] at *
  exact regionLtP_neg_trans hab hbc

lemma sortRegions_sorted (l : List NUTSregion) :
    List.Sorted pySortRel (sortRegions l) :=
  List.sorted_insertionSort pySortRel l

lemma sortRegions_perm (l : List NUTSregion) : (sortRegions l).Perm l :=
  List.perm_insertionSort pySortRel l

lemma mem_sortRegions {x : NUTSregion} {l : List NUTSregion} :
    x ∈ sortRegions l ↔ x ∈ l :=
  (sortRegions_perm l).mem_iff

/-- C2, proved: consecutive elements of every `find` result are
nondecreasing in `(level, id)`: the next region has a strictly larger
level, or the same level and a `>=` identifier. This is claim C2. -/
theorem C2_find_sorted (f : NUTSfinder) (lon lat : Int) (valid_point : Bool) :
    List.Chain'
      (fun r1 r2 => r1.level < r2.level ∨
        (r1.level = r2.level ∧ (lexLtB r1.id r2.id = true ∨ r1.id = r2.id)))
      (f.find lon lat valid_point) := by
  have h := sortRegions_sorted (f.find_rtree lon lat valid_point)
  apply List.Pairwise.chain'
  apply h.imp
  intro a b hab
  unfold pySortRel at hab
  rw [ltB_false_iff] at hab
  unfold regionLtP at hab
  push_neg at hab
  rcases Nat.lt_trichotomy a.level b.level with hl | hl | hl
  · exact Or.inl hl
  · refine Or.inr ⟨hl, ?_⟩
    have h2 := hab.2 hl.symm
    rcases lexLtB_trichotomy a.id b.id with h | h | h
    · exact Or.inl h
    · exact Or.inr h
    · exact absurd h h2
  · exact absurd hab.1 (not_le.mpr hl)

/-! Characterization of the `_validate_candidate_set` loop. -/

lemma confirmedB_def (f : NUTSfinder) (lon lat : Int) (hits : List NUTSregion)
    (region : NUTSregion) :
    ((getParents f.tree region.id).all (fun p => pyIn p hits) &&
      region.geomContains lon lat) = confirmedB f lon lat hits region := rfl

lemma validateAux_eq (f : NUTSfinder) (lon lat : Int) (hits : List NUTSregion)
    (ml acc : List NUTSregion) :
    validateAux f lon lat hits ml acc =
      if f.buffer == 0 then
        match (ml.filter (confirmedB f lon lat hits)).map
            (fun m => getParents f.tree m.id ++ [m]) with
        | [] => npUnique acc
        | c :: _ => acc ++ c
      else
        npUnique (acc ++ ((ml.filter (confirmedB f lon lat hits)).map
          (fun m => getParents f.tree m.id ++ [m])).flatten) := by
  induction ml generalizing acc with
  | nil =>
    simp [validateAux]
  | cons region rest ih =>
    rw [validateAux, confirmedB_def]
    rcases hc : confirmedB f lon lat hits region with _ | _
    · simp only [Bool.false_eq_true, if_false, List.filter_cons, hc]
      exact ih acc
    · simp only [if_true, List.filter_cons, hc, List.map_cons, List.flatten_cons]
      rcases hb : (f.buffer == 0) with _ | _
      · simp only [Bool.false_eq_true, if_false]
        rw [ih]
        simp only [hb, Bool.false_eq_true, if_false]
        congr 1
        simp [List.append_assoc]
      · simp [List.append_assoc]

lemma validate_candidate_set_eq (f : NUTSfinder) (lon lat : Int)
    (hits : List NUTSregion) :
    f.validate_candidate_set lon lat hits =
      if f.buffer == 0 then (confirmedChains f lon lat hits).headD []
      else npUnique (confirmedChains f lon lat hits).flatten := by
  unfold NUTSfinder.validate_candidate_set confirmedChains
  rw [validateAux_eq]
  rcases (f.buffer == 0) with _ | _
  · simp
  · simp only [if_true]
    cases ((hits.filter (fun hit => hit.level == f.max_level)).filter
        (confirmedB f lon lat hits)).map (fun m => getParents f.tree m.id ++ [m]) with
    | nil => rfl
    | cons c cs => simp

/-- C5, proved: with a truthy (in particular any positive) buffer the
validation loop tests every `max_level` candidate, concatenates every
confirmed chain and deduplicates the union; with buffer zero it
returns the first confirmed chain (or the empty deduplicated
accumulator) immediately. This is claim C5. -/
theorem C5_buffer_short_circuit (f : NUTSfinder) (lon lat : Int)
    (hits : List NUTSregion) :
    (0 < f.buffer →
      f.validate_candidate_set lon lat hits =
        npUnique (confirmedChains f lon lat hits).flatten) ∧
    (f.buffer = 0 →
      f.validate_candidate_set lon lat hits =
        (confirmedChains f lon lat hits).headD []) := by
  rw [validate_candidate_set_eq]
  constructor
  · intro h
    rw [if_neg]
    simp only [beq_iff_eq]
    omega
  · intro h
    rw [if_pos]
    simp [h]

/-- Witness for C5 at the concrete fixtures: finder `cfW1` (buffer 1)
deduplicates the union of all confirmed chains, finder `cfW`
(buffer 0) returns the first confirmed chain. -/
theorem C5_witness :
    (0 < cfW1.buffer ∧
      cfW1.validate_candidate_set 5 5 (cfW1.candidates_rtree 5 5) =
        npUnique (confirmedChains cfW1 5 5 (cfW1.candidates_rtree 5 5)).flatten) ∧
    (cfW.buffer = 0 ∧
      cfW.validate_candidate_set 5 5 (cfW.candidates_rtree 5 5) =
        (confirmedChains cfW 5 5 (cfW.candidates_rtree 5 5)).headD []) :=
  ⟨⟨by decide, (C5_buffer_short_circuit cfW1 5 5 (cfW1.candidates_rtree 5 5)).1 (by decide)⟩,
   ⟨rfl, (C5_buffer_short_circuit cfW 5 5 (cfW.candidates_rtree 5 5)).2 rfl⟩⟩

/-- C1 counterexample: on the constructed benchmark finder `cb1` and the
valid query point `(5, 5)` (it lies inside region `A`), the
hierarchical strategy returns `[A]` while the flat R-tree strategy
returns `[]` — the strategies do not agree, refuting C1 as stated. -/
theorem C1_counterexample :
    mkNUTSfinderBenchmark [fA, fA1] 0 0 1 = .ok cb1 ∧
    (regOf fA).geomContains 5 5 = true ∧
    NUTSfinderBenchmark.find cb1 5 5 .tree false = .ok [regOf fA] ∧
    NUTSfinderBenchmark.find cb1 5 5 .rtree false = .ok [] ∧
    ([regOf fA] : List NUTSregion) ≠ [] :=
  ⟨rfl, rfl, rfl, rfl, by simp⟩

/-- C3 counterexample: on finder `cf3` at point `(5, 5)` with
`valid_point = true`, the spec's hierarchy-consistency filter leaves
exactly `max_level - min_level + 1` survivors, yet the exact geometry
test is not skipped: `find` validates and returns `[]`, not the
surviving candidate set — refuting C3 as stated. -/
theorem C3_counterexample :
    mkNUTSfinder [fA3, fX3, fA13, fX13] 0 0 1 = .ok cf3 ∧
    (specHierarchyFilter cf3 (cf3.candidates_rtree 5 5)).length =
      cf3.max_level - cf3.min_level + 1 ∧
    NUTSfinder.find cf3 5 5 true = [] ∧
    NUTSfinder.find cf3 5 5 true ≠ specHierarchyFilter cf3 (cf3.candidates_rtree 5 5) := by
  refine ⟨rfl, rfl, rfl, ?_⟩
  intro h
  exact List.noConfusion
    (show ([] : List NUTSregion) = [regOf fA3, regOf fA13] from h)

/-- C3 amended, proved: the skip condition of `_maybe_validate` tests the
raw bbox-candidate count (before any hierarchy-consistency
filtering): with `valid_point = true`, when the raw count equals
`max_level - min_level + 1` the candidates are returned as-is (no
hierarchy filter, no geometry test), and otherwise full validation
runs. -/
theorem C3_skip_on_raw_count (f : NUTSfinder) (lon lat : Int) :
    ((f.candidates_rtree lon lat).length = f.max_level - f.min_level + 1 →
      f.find lon lat true = sortRegions (f.candidates_rtree lon lat)) ∧
    ((f.candidates_rtree lon lat).length ≠ f.max_level - f.min_level + 1 →
      f.find lon lat true =
        sortRegions (f.validate_candidate_set lon lat (f.candidates_rtree lon lat))) := by
  constructor <;> intro h <;>
    simp [NUTSfinder.find, NUTSfinder.find_rtree, NUTSfinder.maybe_validate, h]

/-- Witness for C3 amended at the concrete finder `cf4`: the raw
candidate count matches, so `find` with `valid_point = true` returns
the sorted raw candidates — including region `X1`, whose geometry
does not contain the point (the exact test was skipped). -/
theorem C3_witness :
    (cf4.candidates_rtree 5 5).length = cf4.max_level - cf4.min_level + 1 ∧
    NUTSfinder.find cf4 5 5 true = sortRegions (cf4.candidates_rtree 5 5) ∧
    (regOf fX14).geomContains 5 5 = false ∧
    regOf fX14 ∈ NUTSfinder.find cf4 5 5 true :=
  ⟨rfl, (C3_skip_on_raw_count cf4 5 5).1 rfl, rfl,
    List.mem_cons_of_mem _ (List.mem_cons_self _ _)⟩

/-- C6 counterexample: with `valid_point = true` and a point inside no
region at all, the flat R-tree, sequential bbox and sequential exact
strategies all return the empty result without any error — refuting
C6's claim that a location failure is surfaced regardless of
strategy. -/
theorem C6_counterexample :
    NUTSfinderBenchmark.find cb1 50 50 .rtree true = .ok [] ∧
    NUTSfinderBenchmark.find cb1 50 50 .bbox true = .ok [] ∧
    NUTSfinderBenchmark.find cb1 50 50 .poly true = .ok [] :=
  ⟨rfl, rfl, rfl⟩

lemma find_tree_aux_ok_ne_nil (f : NUTSfinder) (lon lat : Int) :
    ∀ (fuel : Nat) (cur : PyStr) (out res : List NUTSregion), out ≠ [] →
      find_tree_aux f lon lat true fuel cur out = .ok res → res ≠ [] := by
  intro fuel
  induction fuel with
  | zero =>
    intro cur out res hout hok
    rw [find_tree_aux] at hok
    cases hok
    exact hout
  | succ fuel ih =>
    intro cur out res hout hok
    rw [find_tree_aux] at hok
    rcases he : (treeChildren f.tree cur).isEmpty with _ | _
    · rw [he] at hok
      simp only [Bool.false_eq_true, if_false] at hok
      rcases hh : f.maybe_validate lon lat
          ((treeChildren f.tree cur).filterMap (fun ch => ch.data)) true (some 1)
          .find_poly with _ | ⟨h, t⟩
      · rw [hh] at hok
        simp at hok
      · rw [hh] at hok
        exact ih h.id (out ++ h :: t) res (by simp) hok
    · rw [he] at hok
      simp only [if_true] at hok
      cases hok
      exact hout

/-- C6 amended, proved: only the hierarchical strategy surfaces the
failure — with `valid_point = true`, whenever the root has children,
`_find_tree` never returns an empty result normally (a level with
zero matches raises instead); the flat and sequential strategies
return the empty result without error (see the counterexample). -/
theorem C6_tree_error_on_zero (f : NUTSfinder) (lon lat : Int)
    (res : List NUTSregion)
    (hroot : treeChildren f.tree (pystr "root") ≠ [])
    (hok : find_tree f lon lat true = .ok res) : res ≠ [] := by
  unfold find_tree at hok
  rw [find_tree_aux] at hok
  have he : (treeChildren f.tree (pystr "root")).isEmpty = false := by
    rcases h : treeChildren f.tree (pystr "root") with _ | _
    · exact absurd h hroot
    · rfl
  rw [he] at hok
  simp only [Bool.false_eq_true, if_false] at hok
  rcases hh : f.maybe_validate lon lat
      ((treeChildren f.tree (pystr "root")).filterMap (fun ch => ch.data)) true (some 1)
      .find_poly with _ | ⟨h, t⟩
  · rw [hh] at hok
    simp at hok
  · rw [hh] at hok
    exact find_tree_aux_ok_ne_nil f lon lat _ h.id ([] ++ h :: t) res (by simp) hok

/-- Witness for C6 amended at the concrete finder `cf1`: the tree
strategy with `valid_point = true` locates the chain `[A, A1]`, which
is nonempty as the theorem asserts. -/
theorem C6_witness :
    find_tree cf1 5 5 true = .ok [regOf fA, regOf fA1] ∧
    ([regOf fA, regOf fA1] : List NUTSregion) ≠ [] :=
  ⟨rfl, C6_tree_error_on_zero cf1 5 5 _ (fun h => List.noConfusion h) rfl⟩

/-- C7 counterexample: a single level-1 region `A1` whose computed parent
identifier `A` names no region makes `_construct_tree` — and with it
the whole finder construction — abort with `treelib`'s
`NodeIDAbsentError`, refuting C7's claim of non-fatal handling. -/
theorem C7_counterexample :
    (regOf fOrph).id.dropLast = pystr "A" ∧
    (∀ r ∈ [regOf fOrph], r.id ≠ pystr "A") ∧
    constructTree 0 [regOf fOrph] = .error "NodeIDAbsentError" ∧
    mkNUTSfinder [fOrph] 0 0 1 = .error "NodeIDAbsentError" := by
  refine ⟨rfl, ?_, rfl, rfl⟩
  intro r hr
  rw [List.mem_singleton] at hr
  subst hr
  decide

lemma constructTreeAux_misses_parent (min_level : Nat) (r : NUTSregion)
    (hlev : (r.level == min_level) = false) :
    ∀ (rs : List NUTSregion) (tree : List TreeNode), r ∈ rs →
      (∀ n ∈ tree, n.ident ≠ r.id.dropLast) →
      (∀ r' ∈ rs, r'.id ≠ r.id.dropLast) →
      ∃ e, constructTreeAux min_level tree rs = .error e := by
  intro rs
  induction rs with
  | nil =>
    intro tree hmem
    cases hmem
  | cons r0 rest ih =>
    intro tree hmem htree hrs
    rcases hcn : createNode tree r0.id
        (if r0.level == min_level then pystr "root" else r0.id.dropLast)
        (some r0) with e | t
    · exact ⟨e, by rw [constructTreeAux, hcn]⟩
    · have hstep : constructTreeAux min_level tree (r0 :: rest) =
          constructTreeAux min_level t rest := by
        rw [constructTreeAux, hcn]
      unfold createNode at hcn
      rcases hdup : tree.any (fun n => n.ident == r0.id) with _ | _
      · rw [hdup] at hcn
        simp only [Bool.false_eq_true, if_false] at hcn
        rcases hpar : tree.any (fun n =>
            n.ident == if r0.level == min_level then pystr "root"
              else r0.id.dropLast) with _ | _
        · rw [hpar] at hcn
          simp at hcn
        · rw [hpar] at hcn
          simp only [Bool.not_true, Bool.false_eq_true, if_false] at hcn
          rcases List.mem_cons.mp hmem with hr0 | hrest
          · subst hr0
            rw [hlev] at hpar
            simp only [Bool.false_eq_true, if_false, List.any_eq_true,
              beq_iff_eq] at hpar
            obtain ⟨n, hn, hid⟩ := hpar
            exact absurd hid (htree n hn)
          · have ht : t = tree ++
                [{ ident := r0.id,
                   parent := if r0.level == min_level then pystr "root"
                     else r0.id.dropLast,
                   data := some r0 }] := by
              cases hcn
              rfl
            obtain ⟨e, he⟩ := ih t hrest
              (by
                intro n hn
                rw [ht, List.mem_append] at hn
                rcases hn with hn | hn
                · exact htree n hn
                · rw [List.mem_singleton] at hn
                  subst hn
                  exact hrs r0 (List.mem_cons_self _ _))
              (fun r' hr' => hrs r' (List.mem_cons_of_mem _ hr'))
            exact ⟨e, by rw [hstep, he]⟩
      · rw [hdup] at hcn
        simp at hcn

/-- C7 amended, proved: a region whose computed parent identifier (its id
with the last character stripped) names no region at all — and is not
the synthetic root — makes `_construct_tree` abort with an error; the
region is neither skipped nor attached as an orphan root. -/
theorem C7_orphan_aborts (min_level : Nat) (regions : List NUTSregion)
    (r : NUTSregion) (hmem : r ∈ regions)
    (hlev : (r.level == min_level) = false)
    (hroot : r.id.dropLast ≠ pystr "root")
    (habs : ∀ r' ∈ regions, r'.id ≠ r.id.dropLast) :
    ∃ e, constructTree min_level regions = .error e := by
  apply constructTreeAux_misses_parent min_level r hlev regions [rootNode] hmem
  · intro n hn
    rw [List.mem_singleton] at hn
    subst hn
    exact fun h => hroot h.symm
  · exact habs

/-- Witness for C7 amended at the concrete orphan fixture. -/
theorem C7_witness : ∃ e, constructTree 0 [regOf fOrph] = .error e :=
  C7_orphan_aborts 0 [regOf fOrph] (regOf fOrph) (List.mem_cons_self _ _) rfl
    (by decide)
    (by
      intro r hr
      rw [List.mem_singleton] at hr
      subst hr
      decide)

/-- C8, proved: region construction fails when the geometry type is
neither `Polygon` nor `MultiPolygon`, fails when the feature id
differs from the `NUTS_ID` property, and for every feature passing
both checks succeeds with a region whose bbox is the bounds of the
(possibly buffered) geometry. This is claim C8. -/
theorem C8_region_construction (ft : Feature) (buffer : Int) :
    (ft.geomType ≠ pystr "Polygon" → ft.geomType ≠ pystr "MultiPolygon" →
      ∃ e, mkNUTSregion ft buffer = .error e) ∧
    (ft.fid ≠ ft.nutsId → ∃ e, mkNUTSregion ft buffer = .error e) ∧
    ((ft.geomType = pystr "Polygon" ∨ ft.geomType = pystr "MultiPolygon") →
      ft.fid = ft.nutsId →
      mkNUTSregion ft buffer = .ok
        { id := ft.nutsId, level := ft.levlCode
          geomContains := ft.geom.containsB (if buffer != 0 then buffer else 0)
          bbox := ft.geom.boundsB (if buffer != 0 then buffer else 0) }) := by
  refine ⟨?_, ?_, ?_⟩
  · intro h1 h2
    refine ⟨"AssertionError: geometry type must be Polygon or MultiPolygon", ?_⟩
    unfold mkNUTSregion
    rw [if_pos]
    simp [h1, h2]
  · intro h
    unfold mkNUTSregion
    rcases ht : (ft.geomType == pystr "Polygon" || ft.geomType == pystr "MultiPolygon")
        with _ | _
    · refine ⟨"AssertionError: geometry type must be Polygon or MultiPolygon", ?_⟩
      simp [ht]
    · refine ⟨"AssertionError: feature id differs from NUTS_ID", ?_⟩
      simp only [ht, Bool.not_true, Bool.false_eq_true, if_false]
      rw [if_pos]
      simp [h]
  · intro h1 h2
    unfold mkNUTSregion
    rw [if_neg, if_neg]
    · simp [h2]
    · rcases h1 with h | h <;> simp [h]

/-- Witness for C8 at concrete features: a `Point` feature is rejected, a
feature with mismatched identifiers is rejected, and the well-formed
feature `fA` at buffer `7` constructs a region whose bbox comes from
the buffered geometry. -/
theorem C8_witness :
    (∃ e, mkNUTSregion fBadT 0 = .error e) ∧
    (∃ e, mkNUTSregion fBadId 0 = .error e) ∧
    mkNUTSregion fA 7 = .ok
      { id := fA.nutsId, level := fA.levlCode
        geomContains := fA.geom.containsB (if (7 : Int) != 0 then 7 else 0)
        bbox := fA.geom.boundsB (if (7 : Int) != 0 then 7 else 0) } :=
  ⟨(C8_region_construction fBadT 0).1 (by decide) (by decide),
   (C8_region_construction fBadId 0).2.1 (by decide),
   (C8_region_construction fA 7).2.2 (Or.inl rfl) rfl⟩

/-- C10, proved: region equality is decided by the identifier alone (two
regions with equal ids compare equal regardless of level, geometry or
bbox), Python membership over a region list holds exactly when some
element has the same id, and `np.unique` deduplication collapses
distinct regions with equal ids to one. This is claim C10. -/
theorem C10_id_equality :
    (∀ r1 r2 : NUTSregion, r1.id = r2.id → NUTSregion.eqB r1 r2 = true) ∧
    (∀ (x : NUTSregion) (l : List NUTSregion),
      pyIn x l = true ↔ ∃ h ∈ l, h.id = x.id) ∧
    (∀ r1 r2 : NUTSregion, r1.id = r2.id → (npUnique [r1, r2]).length = 1) := by
  refine ⟨?_, ?_, ?_⟩
  · intro r1 r2 h
    simp [NUTSregion.eqB, h]
  · intro x l
    simp [pyIn, NUTSregion.eqB, List.any_eq_true]
  · intro r1 r2 h
    unfold npUnique sortRegions
    simp only [List.insertionSort, List.orderedInsert]
    by_cases hp : pySortRel r1 r2
    · rw [if_pos hp]
      simp [uniqueAux, NUTSregion.eqB, h]
    · rw [if_neg hp]
      simp [uniqueAux, NUTSregion.eqB, h]

/-- Witness for C10 at the concrete fixture regions `regZ0`, `regZ1`:
same id, different level and bbox, yet equal under `__eq__`, mutually
member-equivalent, and collapsed by `np.unique`. -/
theorem C10_witness :
    NUTSregion.eqB regZ0 regZ1 = true ∧ regZ0.level ≠ regZ1.level ∧
    regZ0.bbox ≠ regZ1.bbox ∧ (npUnique [regZ0, regZ1]).length = 1 ∧
    (pyIn regZ0 [regZ1] = true ↔ ∃ h ∈ [regZ1], h.id = regZ0.id) :=
  ⟨C10_id_equality.1 regZ0 regZ1 rfl, by decide, by decide,
   C10_id_equality.2.2 regZ0 regZ1 rfl, C10_id_equality.2.1 regZ0 [regZ1]⟩

/-! Membership lemmas for `np.unique` and the validated result. -/

lemma uniqueAux_subset (prev : NUTSregion) :
    ∀ l, ∀ x ∈ uniqueAux prev l, x ∈ l := by
  intro l
  induction l generalizing prev with
  | nil =>
    intro x hx
    cases hx
  | cons b rest ih =>
    intro x hx
    rw [uniqueAux] at hx
    rcases heq : NUTSregion.eqB b prev with _ | _
    · rw [heq] at hx
      simp only [Bool.false_eq_true, if_false] at hx
      rcases List.mem_cons.mp hx with h | h
      · exact h ▸ List.mem_cons_self _ _
      · exact List.mem_cons_of_mem _ (ih b x h)
    · rw [heq] at hx
      simp only [if_true] at hx
      exact List.mem_cons_of_mem _ (ih b x hx)

lemma npUnique_subset {x : NUTSregion} {l : List NUTSregion}
    (hx : x ∈ npUnique l) : x ∈ l := by
  unfold npUnique at hx
  rcases hs : sortRegions l with _ | ⟨a, rest⟩
  · rw [hs] at hx
    cases hx
  · rw [hs] at hx
    have : x ∈ sortRegions l := by
      rw [hs]
      rcases List.mem_cons.mp hx with h | h
      · exact h ▸ List.mem_cons_self _ _
      · exact List.mem_cons_of_mem _ (uniqueAux_subset a rest x h)
    exact mem_sortRegions.mp this

lemma uniqueAux_mem_id (prev : NUTSregion) :
    ∀ l, ∀ x ∈ l, (∃ y ∈ uniqueAux prev l, y.id = x.id) ∨ x.id = prev.id := by
  intro l
  induction l generalizing prev with
  | nil =>
    intro x hx
    cases hx
  | cons b rest ih =>
    intro x hx
    have hsub : ∀ y ∈ uniqueAux b rest, y ∈ uniqueAux prev (b :: rest) := by
      intro y hy
      rw [uniqueAux]
      rcases heq : NUTSregion.eqB b prev with _ | _
      · simp only [Bool.false_eq_true, if_false]
        exact List.mem_cons_of_mem _ hy
      · simp only [if_true]
        exact hy
    rcases List.mem_cons.mp hx with h | h
    · subst h
      rcases heq : NUTSregion.eqB x prev with _ | _
      · left
        refine ⟨x, ?_, rfl⟩
        rw [uniqueAux, heq]
        simp only [Bool.false_eq_true, if_false]
        exact List.mem_cons_self _ _
      · right
        unfold NUTSregion.eqB at heq
        exact beq_iff_eq.mp heq
    · rcases ih b x h with ⟨y, hy, hid⟩ | hid
      · exact Or.inl ⟨y, hsub y hy, hid⟩
      · rcases heq : NUTSregion.eqB b prev with _ | _
        · left
          refine ⟨b, ?_, hid.symm⟩
          rw [uniqueAux, heq]
          simp only [Bool.false_eq_true, if_false]
          exact List.mem_cons_self _ _
        · right
          unfold NUTSregion.eqB at heq
          rw [hid]
          exact beq_iff_eq.mp heq

lemma npUnique_mem_id {x : NUTSregion} {l : List NUTSregion} (hx : x ∈ l) :
    ∃ y ∈ npUnique l, y.id = x.id := by
  have hx' : x ∈ sortRegions l := mem_sortRegions.mpr hx
  unfold npUnique
  rcases hs : sortRegions l with _ | ⟨a, rest⟩
  · rw [hs] at hx'
    cases hx'
  · rw [hs] at hx'
    rcases List.mem_cons.mp hx' with h | h
    · exact ⟨a, List.mem_cons_self _ _, (h ▸ rfl : a.id = x.id)⟩
    · rcases uniqueAux_mem_id a rest x h with ⟨y, hy, hid⟩ | hid
      · exact ⟨y, List.mem_cons_of_mem _ hy, hid⟩
      · exact ⟨a, List.mem_cons_self _ _, hid.symm⟩

lemma find_false_eq (f : NUTSfinder) (lon lat : Int) :
    f.find lon lat false =
      sortRegions (f.validate_candidate_set lon lat (f.candidates_rtree lon lat)) := by
  simp [NUTSfinder.find, NUTSfinder.find_rtree, NUTSfinder.maybe_validate]

lemma mem_validate (f : NUTSfinder) (lon lat : Int) (hits : List NUTSregion)
    {r : NUTSregion} (hr : r ∈ f.validate_candidate_set lon lat hits) :
    ∃ m ∈ hits, (m.level == f.max_level) = true ∧
      confirmedB f lon lat hits m = true ∧
      (r = m ∨ r ∈ getParents f.tree m.id) ∧
      ∀ x ∈ getParents f.tree m.id ++ [m],
        ∃ y ∈ f.validate_candidate_set lon lat hits, y.id = x.id := by
  have hval := validate_candidate_set_eq f lon lat hits
  rcases hb : (f.buffer == 0) with _ | _
  · rw [hb] at hval
    simp only [Bool.false_eq_true, if_false] at hval
    rw [hval] at hr
    obtain ⟨c, hc, hrc⟩ := List.mem_flatten.mp (npUnique_subset hr)
    have hc' := hc
    unfold confirmedChains at hc'
    obtain ⟨m, hm, hcm⟩ := List.mem_map.mp hc'
    obtain ⟨hm1, hconf⟩ := List.mem_filter.mp hm
    obtain ⟨hmh, hml⟩ := List.mem_filter.mp hm1
    subst hcm
    refine ⟨m, hmh, hml, hconf, ?_, ?_⟩
    · rcases List.mem_append.mp hrc with h | h
      · exact Or.inr h
      · exact Or.inl (List.mem_singleton.mp h)
    · intro x hx
      have hxf : x ∈ (confirmedChains f lon lat hits).flatten :=
        List.mem_flatten.mpr ⟨_, hc, hx⟩
      obtain ⟨y, hy, hid⟩ := npUnique_mem_id hxf
      exact ⟨y, by rw [hval]; exact hy, hid⟩
  · rw [hb] at hval
    simp only [if_true] at hval
    rw [hval] at hr
    rcases hcc : confirmedChains f lon lat hits with _ | ⟨c, cs⟩
    · rw [hcc] at hr
      cases hr
    · rw [hcc] at hr
      simp only [List.headD_cons] at hr
      have hc : c ∈ confirmedChains f lon lat hits := by
        rw [hcc]
        exact List.mem_cons_self _ _
      unfold confirmedChains at hc
      obtain ⟨m, hm, hcm⟩ := List.mem_map.mp hc
      obtain ⟨hm1, hconf⟩ := List.mem_filter.mp hm
      obtain ⟨hmh, hml⟩ := List.mem_filter.mp hm1
      subst hcm
      refine ⟨m, hmh, hml, hconf, ?_, ?_⟩
      · rcases List.mem_append.mp hr with h | h
        · exact Or.inr h
        · exact Or.inl (List.mem_singleton.mp h)
      · intro x hx
        refine ⟨x, ?_, rfl⟩
        rw [hval, hcc]
        simpa using hx

/-- C9, proved: the flat-strategy validated result consists only of
complete chains anchored at `max_level` — every returned region is a
`max_level` bbox candidate whose geometry contains the point and
whose full parent chain is present among the bbox candidates, or an
ancestor of such a candidate; consequently, with `valid_point =
false`, a point inside some lower-level region but inside no
`max_level` region yields the empty result. This is claim C9. -/
theorem C9_chain_structure (f : NUTSfinder) (lon lat : Int) :
    (∀ r ∈ f.find lon lat false,
      ∃ m ∈ f.candidates_rtree lon lat, m.level = f.max_level ∧
        m.geomContains lon lat = true ∧
        (∀ p ∈ getParents f.tree m.id, pyIn p (f.candidates_rtree lon lat) = true) ∧
        (r = m ∨ r ∈ getParents f.tree m.id)) ∧
    ((∃ q ∈ f.regions, q.level < f.max_level ∧ q.geomContains lon lat = true) →
      (∀ m ∈ f.regions, m.level = f.max_level → m.geomContains lon lat = false) →
      f.find lon lat false = []) := by
  constructor
  · intro r hr
    rw [find_false_eq, mem_sortRegions] at hr
    obtain ⟨m, hm, hlev, hconf, hrm, -⟩ := mem_validate f lon lat _ hr
    unfold confirmedB at hconf
    rw [Bool.and_eq_true] at hconf
    obtain ⟨hall, hgeom⟩ := hconf
    rw [List.all_eq_true] at hall
    exact ⟨m, hm, beq_iff_eq.mp hlev, hgeom, hall, hrm⟩
  · intro _ hmax
    rw [find_false_eq]
    suffices h : f.validate_candidate_set lon lat (f.candidates_rtree lon lat) = [] by
      rw [h]
      rfl
    rw [validate_candidate_set_eq]
    have hchains : confirmedChains f lon lat (f.candidates_rtree lon lat) = [] := by
      unfold confirmedChains
      rw [List.map_eq_nil_iff, List.filter_eq_nil_iff]
      intro m hm
      obtain ⟨hmh, hml⟩ := List.mem_filter.mp hm
      have hreg : m ∈ f.regions := (List.mem_filter.mp hmh).1
      have hge : m.geomContains lon lat = false :=
        hmax m hreg (beq_iff_eq.mp hml)
      simp [confirmedB, hge]
    rw [hchains]
    cases (f.buffer == 0) <;> rfl

/-! Well-formedness of constructed hierarchy trees, and the suffix
structure of `_get_parents` chains on them. -/

lemma TreeWF_append {tree : List TreeNode} (hwf : TreeWF tree) (r0 : NUTSregion)
    (parent : PyStr) (hdup : ∀ n ∈ tree, n.ident ≠ r0.id)
    (hparent : parent = pystr "root" ∨ (r0.id ≠ [] ∧ parent = r0.id.dropLast)) :
    TreeWF (tree ++ [{ ident := r0.id, parent := parent, data := some r0 }]) := by
  obtain ⟨hroot, huniq, hdata, hnone, hpar⟩ := hwf
  have hmem : ∀ n, n ∈ tree ++ [{ ident := r0.id, parent := parent, data := some r0 }] ↔
      n ∈ tree ∨ n = { ident := r0.id, parent := parent, data := some r0 } := by
    intro n
    rw [List.mem_append, List.mem_singleton]
  refine ⟨?_, ?_, ?_, ?_, ?_⟩
  · exact List.mem_append_left _ hroot
  · intro m hm n hn hid
    rcases (hmem m).mp hm with hm' | hm' <;> rcases (hmem n).mp hn with hn' | hn'
    · exact huniq m hm' n hn' hid
    · subst hn'
      exact absurd hid (hdup m hm')
    · subst hm'
      exact absurd hid.symm (hdup n hn')
    · rw [hm', hn']
  · intro n hn rr hd
    rcases (hmem n).mp hn with hn' | hn'
    · exact hdata n hn' rr hd
    · subst hn'
      cases hd
      rfl
  · intro n hn hd
    rcases (hmem n).mp hn with hn' | hn'
    · exact hnone n hn' hd
    · subst hn'
      cases hd
  · intro n hn rr hd
    rcases (hmem n).mp hn with hn' | hn'
    · exact hpar n hn' rr hd
    · subst hn'
      exact hparent

lemma TreeWF_root : TreeWF [rootNode] := by
  refine ⟨List.mem_cons_self _ _, ?_, ?_, ?_, ?_⟩
  · intro m hm n hn _
    rw [List.mem_singleton] at hm hn
    rw [hm, hn]
  · intro n hn rr hd
    rw [List.mem_singleton] at hn
    subst hn
    cases hd
  · intro n hn _
    rw [List.mem_singleton] at hn
    subst hn
    rfl
  · intro n hn rr hd
    rw [List.mem_singleton] at hn
    subst hn
    cases hd

lemma constructTreeAux_wf (min_level : Nat) :
    ∀ (rs : List NUTSregion) (tree t : List TreeNode),
      TreeWF tree → constructTreeAux min_level tree rs = .ok t →
      TreeWF t ∧ (∀ n ∈ tree, n ∈ t) ∧
      (∀ r ∈ rs, ∃ n ∈ t, n.ident = r.id ∧ n.data = some r) := by
  intro rs
  induction rs with
  | nil =>
    intro tree t hwf hok
    rw [constructTreeAux] at hok
    cases hok
    exact ⟨hwf, fun n hn => hn, fun r hr => absurd hr (List.not_mem_nil r)⟩
  | cons r0 rest ih =>
    intro tree t hwf hok
    rw [constructTreeAux] at hok
    rcases hcn : createNode tree r0.id
        (if r0.level == min_level then pystr "root" else r0.id.dropLast)
        (some r0) with e | t1
    · rw [hcn] at hok
      cases hok
    · rw [hcn] at hok
      unfold createNode at hcn
      rcases hdup : tree.any (fun n => n.ident == r0.id) with _ | _
      · rw [hdup] at hcn
        simp only [Bool.false_eq_true, if_false] at hcn
        rcases hpar : tree.any (fun n =>
            n.ident == if r0.level == min_level then pystr "root"
              else r0.id.dropLast) with _ | _
        · rw [hpar] at hcn
          simp at hcn
        · rw [hpar] at hcn
          simp only [Bool.not_true, Bool.false_eq_true, if_false] at hcn
          have hdup' : ∀ n ∈ tree, n.ident ≠ r0.id := by
            intro n hn
            have := List.any_eq_false.mp hdup n hn
            simpa using this
          have hshape : (if r0.level == min_level then pystr "root"
              else r0.id.dropLast) = pystr "root" ∨
              (r0.id ≠ [] ∧ (if r0.level == min_level then pystr "root"
                else r0.id.dropLast) = r0.id.dropLast) := by
            rcases hl : (r0.level == min_level) with _ | _
            · simp only [hl, Bool.false_eq_true, if_false]
              right
              refine ⟨?_, trivial⟩
              intro hnil
              simp only [hl, Bool.false_eq_true, if_false] at hpar
              rw [List.any_eq_true] at hpar
              obtain ⟨n, hn, hid⟩ := hpar
              rw [beq_iff_eq] at hid
              rw [hnil] at hid
              simp only [List.dropLast_nil] at hid
              exact hdup' n hn (by rw [hid, hnil])
            · simp only [hl, if_true]
              exact Or.inl trivial
          have hwf1 : TreeWF t1 := by
            cases hcn
            exact TreeWF_append hwf r0 _ hdup' hshape
          obtain ⟨hwt, hsub0, hrest⟩ := ih t1 t hwf1 hok
          refine ⟨hwt, ?_, ?_⟩
          · intro n hn
            apply hsub0
            cases hcn
            exact List.mem_append_left _ hn
          · intro r hr
            rcases List.mem_cons.mp hr with h | h
            · subst h
              have hmem1 : treeNodeFor min_level r ∈ t1 := by
                cases hcn
                exact List.mem_append_right _ (List.mem_singleton.mpr rfl)
              exact ⟨treeNodeFor min_level r, hsub0 _ hmem1, rfl, rfl⟩
            · exact hrest r h
      · rw [hdup] at hcn
        simp at hcn

lemma constructTree_wf {min_level : Nat} {regions : List NUTSregion}
    {t : List TreeNode} (hok : constructTree min_level regions = .ok t) :
    TreeWF t ∧ ∀ r ∈ regions, ∃ n ∈ t, n.ident = r.id ∧ n.data = some r := by
  obtain ⟨h1, _, h3⟩ :=
    constructTreeAux_wf min_level regions [rootNode] t TreeWF_root hok
  exact ⟨h1, h3⟩

lemma findNode_mem_ident {tree : List TreeNode} {id : PyStr} {n : TreeNode}
    (h : findNode tree id = some n) : n ∈ tree ∧ n.ident = id := by
  unfold findNode at h
  have hpred := List.find?_some h
  simp only [beq_iff_eq] at hpred
  exact ⟨List.mem_of_find?_eq_some h, hpred⟩

lemma findNode_eq {tree : List TreeNode} (hwf : TreeWF tree) {n0 : TreeNode}
    (hn0 : n0 ∈ tree) : findNode tree n0.ident = some n0 := by
  have hsome : (tree.find? (fun n => n.ident == n0.ident)).isSome := by
    rw [List.find?_isSome]
    exact ⟨n0, hn0, by simp⟩
  obtain ⟨n, hn⟩ := Option.isSome_iff_exists.mp hsome
  have hmem := List.mem_of_find?_eq_some hn
  have hpred := List.find?_some hn
  rw [beq_iff_eq] at hpred
  have : n = n0 := hwf.2.1 n hmem n0 hn0 hpred
  rw [findNode, hn, this]

lemma getParents_cons {tree : List TreeNode} (hwf : TreeWF tree) {cur : PyStr}
    {n : TreeNode} (hfind : findNode tree cur = some n) (hd : n.data.isSome) :
    getParents tree cur = [] ∨
    ∃ (r : NUTSregion) (q : TreeNode), cur ≠ [] ∧ r.id = cur.dropLast ∧
      findNode tree r.id = some q ∧ q.data = some r ∧
      getParents tree cur = r :: getParents tree r.id := by
  rcases hp : treeParentData tree cur with _ | op
  · left
    unfold getParents
    rw [getParentsAux, hp]
  · rcases op with _ | r
    · left
      unfold getParents
      rw [getParentsAux, hp]
    · right
      have hp0 := hp
      unfold treeParentData at hp
      rw [hfind] at hp
      dsimp only at hp
      rcases hq : findNode tree n.parent with _ | q
      · rw [hq] at hp
        cases hp
      · rw [hq] at hp
        have hqd : q.data = some r := Option.some.inj hp
        obtain ⟨hqmem, hqid⟩ := findNode_mem_ident hq
        have hrid : r.id = n.parent := by
          rw [← hqid]
          exact hwf.2.2.1 q hqmem r hqd
        obtain ⟨hnmem, hnid⟩ := findNode_mem_ident hfind
        obtain ⟨r0, hr0⟩ := Option.isSome_iff_exists.mp hd
        rcases hwf.2.2.2.2 n hnmem r0 hr0 with hroot | ⟨hne, hpl⟩
        · exfalso
          have : q = rootNode := by
            apply hwf.2.1 q hqmem rootNode hwf.1
            rw [hqid, hroot]
            rfl
          rw [this] at hqd
          cases hqd
        · rw [hnid] at hne hpl
          refine ⟨r, q, hne, by rw [hrid, hpl], by rw [hrid]; exact hq, hqd, ?_⟩
          unfold getParents
          rw [getParentsAux, hp0]
          dsimp only
          congr 1
          have hlen : r.id.length + 1 = cur.length := by
            rw [hrid, hpl, List.length_dropLast]
            rcases cur with _ | ⟨c, cs⟩
            · exact absurd rfl hne
            · simp
          rw [hlen]

lemma getParents_closure_aux {tree : List TreeNode} (hwf : TreeWF tree) :
    ∀ (k : Nat) (cur : PyStr), cur.length ≤ k →
      ∀ n : TreeNode, findNode tree cur = some n → n.data.isSome →
      ∀ p ∈ getParents tree cur, ∀ x ∈ getParents tree p.id,
        x ∈ getParents tree cur := by
  intro k
  induction k with
  | zero =>
    intro cur hlen n hfind hd p hp x _
    rcases getParents_cons hwf hfind hd with h0 | ⟨r, q, hne, _⟩
    · rw [h0] at hp
      cases hp
    · exact absurd (List.eq_nil_of_length_eq_zero (Nat.le_zero.mp hlen)) hne
  | succ k ih =>
    intro cur hlen n hfind hd p hp x hx
    rcases getParents_cons hwf hfind hd with h0 | ⟨r, q, hne, hrid, hfq, hqd, heq⟩
    · rw [h0] at hp
      cases hp
    · rw [heq] at hp ⊢
      rcases List.mem_cons.mp hp with hpr | hpr
      · subst hpr
        exact List.mem_cons_of_mem _ hx
      · have hlen' : r.id.length ≤ k := by
          rw [hrid, List.length_dropLast]
          rcases cur with _ | ⟨c, cs⟩
          · exact absurd rfl hne
          · simp only [List.length_cons] at hlen ⊢
            omega
        have := ih r.id hlen' q hfq (by rw [hqd]; rfl) p hpr x hx
        exact List.mem_cons_of_mem _ this

lemma getParents_closure {tree : List TreeNode} (hwf : TreeWF tree) {cur : PyStr}
    {n : TreeNode} (hfind : findNode tree cur = some n) (hd : n.data.isSome) :
    ∀ p ∈ getParents tree cur, ∀ x ∈ getParents tree p.id,
      x ∈ getParents tree cur :=
  getParents_closure_aux hwf cur.length cur (Nat.le_refl _) n hfind hd

/-! Order-robustness of the flat strategies: the R-tree library
guarantees only the candidate set, so agreement with the sequential
bbox scan is proved for every permutation of the candidates. -/

lemma mkNUTSfinder_ok {features : List Feature} {buffer : Int}
    {min_level max_level : Nat} {f : NUTSfinder}
    (hf : mkNUTSfinder features buffer min_level max_level = .ok f) :
    constructTree min_level f.regions = .ok f.tree := by
  unfold mkNUTSfinder at hf
  rcases hd : decide (min_level ≤ max_level) with _ | _
  · rw [hd] at hf
    simp at hf
  · rw [hd] at hf
    simp only [Bool.not_true, Bool.false_eq_true, if_false] at hf
    rcases hl : load_regions buffer min_level max_level features with e | regs
    · rw [hl] at hf
      cases hf
    · rw [hl] at hf
      dsimp only at hf
      rcases hct : constructTree min_level regs with e | tr
      · rw [hct] at hf
        cases hf
      · rw [hct] at hf
        dsimp only at hf
        injection hf with hf
        subst hf
        exact hct

lemma constructTree_id_inj {min_level : Nat} {regions : List NUTSregion}
    {t : List TreeNode} (hok : constructTree min_level regions = .ok t) :
    ∀ r1 ∈ regions, ∀ r2 ∈ regions, r1.id = r2.id → r1 = r2 := by
  obtain ⟨hwf, hnodes⟩ := constructTree_wf hok
  intro r1 h1 r2 h2 hid
  obtain ⟨n1, hn1, hi1, hd1⟩ := hnodes r1 h1
  obtain ⟨n2, hn2, hi2, hd2⟩ := hnodes r2 h2
  have hn : n1 = n2 := hwf.2.1 n1 hn1 n2 hn2 (by rw [hi1, hi2, hid])
  rw [hn] at hd1
  rw [hd1] at hd2
  exact Option.some.inj hd2

lemma constructTreeAux_data_sub (min_level : Nat) :
    ∀ (rs : List NUTSregion) (tree t : List TreeNode),
      constructTreeAux min_level tree rs = .ok t →
      ∀ n ∈ t, ∀ r, n.data = some r →
        (∃ n0 ∈ tree, n0.data = some r) ∨ r ∈ rs := by
  intro rs
  induction rs with
  | nil =>
    intro tree t hok n hn r hd
    rw [constructTreeAux] at hok
    cases hok
    exact Or.inl ⟨n, hn, hd⟩
  | cons r0 rest ih =>
    intro tree t hok n hn r hd
    rw [constructTreeAux] at hok
    rcases hcn : createNode tree r0.id
        (if r0.level == min_level then pystr "root" else r0.id.dropLast)
        (some r0) with e | t1
    · rw [hcn] at hok
      cases hok
    · rw [hcn] at hok
      rcases ih t1 t hok n hn r hd with h | h
      · obtain ⟨n0, hn0, hd0⟩ := h
        unfold createNode at hcn
        rcases hdup : tree.any (fun n => n.ident == r0.id) with _ | _
        · rw [hdup] at hcn
          simp only [Bool.false_eq_true, if_false] at hcn
          rcases hpar : tree.any (fun n =>
              n.ident == if r0.level == min_level then pystr "root"
                else r0.id.dropLast) with _ | _
          · rw [hpar] at hcn
            simp at hcn
          · rw [hpar] at hcn
            simp only [Bool.not_true, Bool.false_eq_true, if_false] at hcn
            cases hcn
            rcases List.mem_append.mp hn0 with h0 | h0
            · exact Or.inl ⟨n0, h0, hd0⟩
            · rw [List.mem_singleton] at h0
              subst h0
              right
              have hr0 : r0 = r := Option.some.inj hd0
              rw [← hr0]
              exact List.mem_cons_self _ _
        · rw [hdup] at hcn
          simp at hcn
      · exact Or.inr (List.mem_cons_of_mem _ h)

lemma constructTree_data_sub {min_level : Nat} {regions : List NUTSregion}
    {t : List TreeNode} (hok : constructTree min_level regions = .ok t) :
    ∀ n ∈ t, ∀ r, n.data = some r → r ∈ regions := by
  intro n hn r hd
  rcases constructTreeAux_data_sub min_level regions [rootNode] t hok n hn r hd
      with h | h
  · obtain ⟨n0, hn0, hd0⟩ := h
    rw [List.mem_singleton] at hn0
    subst hn0
    cases hd0
  · exact h

lemma getParentsAux_data (tree : List TreeNode) :
    ∀ (fuel : Nat) (cur : PyStr), ∀ r ∈ getParentsAux tree fuel cur,
      ∃ n ∈ tree, n.data = some r := by
  intro fuel
  induction fuel with
  | zero =>
    intro cur r hr
    rw [getParentsAux] at hr
    cases hr
  | succ fuel ih =>
    intro cur r hr
    rw [getParentsAux] at hr
    rcases hp : treeParentData tree cur with _ | ⟨_ | r0⟩
    · rw [hp] at hr
      cases hr
    · rw [hp] at hr
      cases hr
    · rw [hp] at hr
      dsimp only at hr
      unfold treeParentData at hp
      rcases hn : findNode tree cur with _ | n
      · rw [hn] at hp
        cases hp
      · rw [hn] at hp
        dsimp only at hp
        rcases hq : findNode tree n.parent with _ | q
        · rw [hq] at hp
          cases hp
        · rw [hq] at hp
          have hqd : q.data = some r0 := Option.some.inj hp
          rcases List.mem_cons.mp hr with h | h
          · subst h
            exact ⟨q, (findNode_mem_ident hq).1, hqd⟩
          · exact ih r0.id r h

lemma getParents_data {tree : List TreeNode} {id : PyStr} :
    ∀ r ∈ getParents tree id, ∃ n ∈ tree, n.data = some r :=
  getParentsAux_data tree (id.length + 1) id

lemma pyIn_perm {l l' : List NUTSregion} (h : l.Perm l') (x : NUTSregion) :
    pyIn x l = pyIn x l' := by
  unfold pyIn
  rcases hb : l'.any (fun h => NUTSregion.eqB h x) with _ | _
  · rw [List.any_eq_false] at hb ⊢
    intro y hy
    exact hb y (h.subset hy)
  · rw [List.any_eq_true] at hb ⊢
    obtain ⟨y, hy, hp⟩ := hb
    exact ⟨y, h.symm.subset hy, hp⟩

lemma confirmedB_perm (f : NUTSfinder) (lon lat : Int)
    {cand hits : List NUTSregion} (h : cand.Perm hits) (m : NUTSregion) :
    confirmedB f lon lat cand m = confirmedB f lon lat hits m := by
  unfold confirmedB
  rw [show (fun p => pyIn p cand) = (fun p => pyIn p hits) from
    funext (fun p => pyIn_perm h p)]

lemma confirmedChains_perm (f : NUTSfinder) (lon lat : Int)
    {cand hits : List NUTSregion} (h : cand.Perm hits) :
    (confirmedChains f lon lat cand).Perm (confirmedChains f lon lat hits) := by
  unfold confirmedChains
  apply List.Perm.map
  rw [List.filter_congr (fun x _ => confirmedB_perm f lon lat h x)]
  exact (h.filter _).filter _

lemma confirmedChains_flatten_sub (f : NUTSfinder) (lon lat : Int)
    {cand : List NUTSregion} (hsub : ∀ x ∈ cand, x ∈ f.regions)
    (htree : ∀ n ∈ f.tree, ∀ r, n.data = some r → r ∈ f.regions) :
    ∀ x ∈ (confirmedChains f lon lat cand).flatten, x ∈ f.regions := by
  intro x hx
  obtain ⟨c, hc, hxc⟩ := List.mem_flatten.mp hx
  unfold confirmedChains at hc
  obtain ⟨m, hm, hcm⟩ := List.mem_map.mp hc
  subst hcm
  rcases List.mem_append.mp hxc with h | h
  · obtain ⟨n, hn, hd⟩ := getParents_data x h
    exact htree n hn x hd
  · rw [List.mem_singleton] at h
    subst h
    exact hsub x ((List.mem_filter.mp (List.mem_filter.mp hm).1).1)

lemma pySortRel_key_eq {a b : NUTSregion} (h1 : pySortRel a b)
    (h2 : pySortRel b a) : a.level = b.level ∧ a.id = b.id := by
  unfold pySortRel at h1 h2
  rw [ltB_false_iff] at h1 h2
  unfold regionLtP at h1 h2
  push_neg at h1 h2
  have hlev : a.level = b.level := by omega
  refine ⟨hlev, ?_⟩
  have hba := h1.2 hlev.symm
  have hab := h2.2 hlev
  rcases lexLtB_trichotomy a.id b.id with h | h | h
  · exact absurd h hab
  · exact h
  · exact absurd h hba

lemma sorted_eq_of_perm : ∀ {l₁ l₂ : List NUTSregion}, l₁.Perm l₂ →
    List.Sorted pySortRel l₁ → List.Sorted pySortRel l₂ →
    (∀ a ∈ l₁, ∀ b ∈ l₁, a.level = b.level → a.id = b.id → a = b) →
    l₁ = l₂ := by
  intro l₁
  induction l₁ with
  | nil =>
    intro l₂ h _ _ _
    exact (h.symm.eq_nil).symm
  | cons a t₁ ih =>
    intro l₂ h hs₁ hs₂ hloc
    rcases l₂ with _ | ⟨c, t₂⟩
    · exact absurd h.eq_nil (by simp)
    · have hac : a ∈ c :: t₂ := h.subset (List.mem_cons_self _ _)
      have hca : c ∈ a :: t₁ := h.symm.subset (List.mem_cons_self _ _)
      have heq : a = c := by
        rcases List.mem_cons.mp hac with h1 | h1
        · exact h1
        · rcases List.mem_cons.mp hca with h2 | h2
          · exact h2.symm
          · have hsc : pySortRel c a := (List.pairwise_cons.mp hs₂).1 a h1
            have hsa : pySortRel a c := (List.pairwise_cons.mp hs₁).1 c h2
            obtain ⟨hl, hi⟩ := pySortRel_key_eq hsa hsc
            exact hloc a (List.mem_cons_self _ _) c hca hl hi
      subst heq
      have ht := h.cons_inv
      have hrec := ih ht (List.pairwise_cons.mp hs₁).2 (List.pairwise_cons.mp hs₂).2
        (fun x hx y hy =>
          hloc x (List.mem_cons_of_mem _ hx) y (List.mem_cons_of_mem _ hy))
      rw [hrec]

lemma sortRegions_eq_of_perm {l l' : List NUTSregion} (h : l.Perm l')
    (hloc : ∀ a ∈ l, ∀ b ∈ l, a.level = b.level → a.id = b.id → a = b) :
    sortRegions l = sortRegions l' := by
  apply sorted_eq_of_perm
  · exact (sortRegions_perm l).trans (h.trans (sortRegions_perm l').symm)
  · exact sortRegions_sorted l
  · exact sortRegions_sorted l'
  · intro x hx y hy
    exact hloc x (mem_sortRegions.mp hx) y (mem_sortRegions.mp hy)

lemma npUnique_eq_of_perm {l l' : List NUTSregion} (h : l.Perm l')
    (hloc : ∀ a ∈ l, ∀ b ∈ l, a.level = b.level → a.id = b.id → a = b) :
    npUnique l = npUnique l' := by
  unfold npUnique
  rw [sortRegions_eq_of_perm h hloc]

lemma eq_of_perm_of_allEq : ∀ {l₁ l₂ : List NUTSregion}, l₁.Perm l₂ →
    (∀ a ∈ l₁, ∀ b ∈ l₁, a = b) → l₁ = l₂ := by
  intro l₁
  induction l₁ with
  | nil =>
    intro l₂ h _
    exact (h.symm.eq_nil).symm
  | cons a t₁ ih =>
    intro l₂ h hall
    rcases l₂ with _ | ⟨c, t₂⟩
    · exact absurd h.eq_nil (by simp)
    · have hca : c ∈ a :: t₁ := h.symm.subset (List.mem_cons_self _ _)
      have heq : a = c := hall a (List.mem_cons_self _ _) c hca
      subst heq
      have hrec := ih h.cons_inv
        (fun x hx y hy =>
          hall x (List.mem_cons_of_mem _ hx) y (List.mem_cons_of_mem _ hy))
      rw [hrec]

/-- C1 amended, proved: the flat R-tree and sequential bbox strategies
always work from the same candidate set, and their sorted outputs
agree — for every candidate iteration order the R-tree library may
produce (any permutation of the bbox-hit set) — on every constructed
finder whenever (i) the fast-path skip fires, or (ii) the buffer is
truthy, or (iii) at most one `max_level` candidate passes the
confirmation test. (With buffer zero and two confirmed chains the
first-confirmed-chain return of `_validate_candidate_set` depends on
the candidate order, so agreement is not guaranteed there; and the
hierarchical and sequential-exact strategies may differ from the flat
ones, see the counterexample.) -/
theorem C1_rtree_bbox_agree
    (features : List Feature) (buffer : Int) (min_level max_level : Nat)
    (f : NUTSfinder) (hf : mkNUTSfinder features buffer min_level max_level = .ok f)
    (lon lat : Int) (valid_point : Bool) (cand : List NUTSregion)
    (hperm : cand.Perm (f.candidates_rtree lon lat))
    (hcase : f.buffer ≠ 0 ∨
      (valid_point && (cand.length == f.max_level - f.min_level + 1)) = true ∨
      (∀ m1 ∈ f.candidates_rtree lon lat, ∀ m2 ∈ f.candidates_rtree lon lat,
        m1.level = f.max_level → m2.level = f.max_level →
        confirmedB f lon lat (f.candidates_rtree lon lat) m1 = true →
        confirmedB f lon lat (f.candidates_rtree lon lat) m2 = true → m1 = m2)) :
    sortRegions (f.maybe_validate lon lat cand valid_point none
        .validate_candidate_set) =
      sortRegions (find_bbox f lon lat f.regions valid_point) := by
  have hct := mkNUTSfinder_ok hf
  have hidinj := constructTree_id_inj hct
  have htreedata := constructTree_data_sub hct
  have hbbox : find_bbox f lon lat f.regions valid_point =
      f.maybe_validate lon lat (f.candidates_rtree lon lat) valid_point none
        .validate_candidate_set := rfl
  rw [hbbox]
  have hsubh : ∀ x ∈ f.candidates_rtree lon lat, x ∈ f.regions := by
    intro x hx
    exact (List.mem_filter.mp hx).1
  have hsubc : ∀ x ∈ cand, x ∈ f.regions := fun x hx => hsubh x (hperm.subset hx)
  have hlocc : ∀ a ∈ cand, ∀ b ∈ cand, a.level = b.level → a.id = b.id → a = b :=
    fun a ha b hb _ hid => hidinj a (hsubc a ha) b (hsubc b hb) hid
  have hlen := hperm.length_eq
  unfold NUTSfinder.maybe_validate
  dsimp only
  rw [hlen]
  rcases hsc : (valid_point &&
      ((f.candidates_rtree lon lat).length == f.max_level - f.min_level + 1))
      with _ | _
  · simp only [hsc, Bool.false_eq_true, if_false]
    rw [validate_candidate_set_eq, validate_candidate_set_eq]
    rcases hb0 : (f.buffer == 0) with _ | _
    · simp only [hb0, Bool.false_eq_true, if_false]
      have hcp := confirmedChains_perm f lon lat hperm
      have hloc2 : ∀ a ∈ (confirmedChains f lon lat cand).flatten,
          ∀ b ∈ (confirmedChains f lon lat cand).flatten,
          a.level = b.level → a.id = b.id → a = b := by
        intro a ha b hb _ hid
        exact hidinj a (confirmedChains_flatten_sub f lon lat hsubc htreedata a ha)
          b (confirmedChains_flatten_sub f lon lat hsubc htreedata b hb) hid
      rw [npUnique_eq_of_perm hcp.flatten hloc2]
    · simp only [hb0, if_true]
      rcases hcase with hne | hskip | huniq
      · exact absurd (beq_iff_eq.mp hb0) hne
      · rw [hlen] at hskip
        rw [hsc] at hskip
        cases hskip
      · have hfc : ((cand.filter (fun hit => hit.level == f.max_level)).filter
            (confirmedB f lon lat cand)) =
            (((f.candidates_rtree lon lat).filter
              (fun hit => hit.level == f.max_level)).filter
            (confirmedB f lon lat (f.candidates_rtree lon lat))) := by
          rw [List.filter_congr (fun x _ => confirmedB_perm f lon lat hperm x)]
          apply eq_of_perm_of_allEq ((hperm.filter _).filter _)
          intro x hx y hy
          obtain ⟨hx1, hxc⟩ := List.mem_filter.mp hx
          obtain ⟨hxm, hxl⟩ := List.mem_filter.mp hx1
          obtain ⟨hy1, hyc⟩ := List.mem_filter.mp hy
          obtain ⟨hym, hyl⟩ := List.mem_filter.mp hy1
          exact huniq x (hperm.subset hxm) y (hperm.subset hym)
            (beq_iff_eq.mp hxl) (beq_iff_eq.mp hyl) hxc hyc
        have hcc : confirmedChains f lon lat cand =
            confirmedChains f lon lat (f.candidates_rtree lon lat) := by
          unfold confirmedChains
          rw [hfc]
        rw [hcc]
  · simp only [hsc, if_true]
    exact sortRegions_eq_of_perm hperm hlocc

/-- Witness for C1 amended at the concrete finder `cf1`: with the
candidates handed over in the reversed order `[A1, A]` (a permutation
the R-tree is free to produce) and at most one confirmed candidate
(here none: `A1`'s geometry misses the point), the R-tree strategy's
sorted output equals the sequential bbox scan's. -/
theorem C1_witness :
    sortRegions (cf1.maybe_validate 5 5 [regOf fA1, regOf fA] false none
        .validate_candidate_set) =
      sortRegions (find_bbox cf1 5 5 cf1.regions false) :=
  C1_rtree_bbox_agree [fA, fA1] 0 0 1 cf1 rfl 5 5 false [regOf fA1, regOf fA]
    (List.Perm.swap (regOf fA) (regOf fA1) [])
    (Or.inr (Or.inr (by
      intro m1 hm1 m2 hm2 hl1 hl2 hc1 hc2
      have hm1' : m1 ∈ [regOf fA, regOf fA1] := hm1
      rcases List.mem_cons.mp hm1' with h | h
      · subst h
        exact absurd hl1 (by decide)
      · rw [List.mem_singleton] at h
        subst h
        exact absurd hc1 (by decide))))

/-- C4 counterexample: on the constructed finder `cf4` with
`valid_point = true`, the raw candidate count matches the expectation,
so the candidates are returned as-is: the result contains the level-1
region `X1` but not its ancestor `X` (whose bbox excludes the query
point) — refuting C4 as stated for fast-path queries. -/
theorem C4_counterexample :
    mkNUTSfinder [fA4, fX4, fX14] 0 0 1 = .ok cf4 ∧
    NUTSfinder.find cf4 5 5 true = [regOf fA4, regOf fX14] ∧
    cf4.min_level < (regOf fX14).level ∧
    getParents cf4.tree (regOf fX14).id = [regOf fX4] ∧
    ∀ q ∈ NUTSfinder.find cf4 5 5 true, q.id ≠ (regOf fX4).id := by
  refine ⟨rfl, rfl, by decide, rfl, ?_⟩
  intro q hq
  rcases List.mem_cons.mp hq with h | h
  · subst h
    decide
  · rw [List.mem_singleton] at h
    subst h
    decide

/-- C4 amended, proved: whenever the exact validation runs — in
particular for every query with `valid_point = false` — ancestor
completeness holds on every constructed finder: for every returned
region, each of its ancestors in the hierarchy tree (the id-stripping
chain of `_get_parents`) is present in the returned result (witnessed
by identifier). -/
theorem C4_ancestor_complete (features : List Feature) (buffer : Int)
    (min_level max_level : Nat) (f : NUTSfinder)
    (hf : mkNUTSfinder features buffer min_level max_level = .ok f)
    (lon lat : Int) (r : NUTSregion) (hr : r ∈ f.find lon lat false)
    (p : NUTSregion) (hp : p ∈ getParents f.tree r.id) :
    ∃ q ∈ f.find lon lat false, q.id = p.id := by
  unfold mkNUTSfinder at hf
  rcases hd : decide (min_level ≤ max_level) with _ | _
  · rw [hd] at hf
    simp at hf
  · rw [hd] at hf
    simp only [Bool.not_true, Bool.false_eq_true, if_false] at hf
    rcases hl : load_regions buffer min_level max_level features with e | regs
    · rw [hl] at hf
      cases hf
    · rw [hl] at hf
      dsimp only at hf
      rcases hct : constructTree min_level regs with e | tr
      · rw [hct] at hf
        cases hf
      · rw [hct] at hf
        dsimp only at hf
        injection hf with hf
        subst hf
        obtain ⟨hwf, hnodes⟩ := constructTree_wf hct
        rw [find_false_eq, mem_sortRegions] at hr
        obtain ⟨m, hm, hlev, hconf, hrm, hchainmem⟩ := mem_validate _ lon lat _ hr
        have hmreg : m ∈ regs := (List.mem_filter.mp hm).1
        obtain ⟨n, hn, hnid, hnd⟩ := hnodes m hmreg
        have hfind : findNode tr m.id = some n := by
          rw [← hnid]
          exact findNode_eq hwf hn
        have hd' : n.data.isSome := by
          rw [hnd]
          rfl
        have hpm : p ∈ getParents tr m.id := by
          rcases hrm with h | h
          · subst h
            exact hp
          · exact getParents_closure hwf hfind hd' r h p hp
        obtain ⟨y, hy, hid⟩ := hchainmem p (List.mem_append_left _ hpm)
        refine ⟨y, ?_, hid⟩
        rw [find_false_eq, mem_sortRegions]
        exact hy

/-- Witness for C4 amended at the concrete finder `cfW`: the query
returns the chain `[A, A1]`, and the ancestor `A` of the returned
region `A1` is indeed present (by identifier) in the result. -/
theorem C4_witness : ∃ q ∈ NUTSfinder.find cfW 5 5 false, q.id = (regOf fAw).id :=
  C4_ancestor_complete [fAw, fA1w] 0 0 1 cfW rfl 5 5 (regOf fA1w)
    (List.mem_cons_of_mem _ (List.mem_cons_self _ _)) (regOf fAw)
    (List.mem_cons_self _ _)

/-- Witness for C9 at the concrete finder `cf1`: the point `(5, 5)` lies
inside the level-0 region `A` but in no level-1 region, and `find`
with `valid_point = false` returns the empty result. -/
theorem C9_witness : NUTSfinder.find cf1 5 5 false = [] :=
  (C9_chain_structure cf1 5 5).2
    ⟨regOf fA, List.mem_cons_self _ _, by decide, rfl⟩
    (by
      intro m hm hl
      rcases List.mem_cons.mp hm with h | h
      · subst h
        exact absurd hl (by decide)
      · rw [List.mem_singleton] at h
        subst h
        rfl)

end FastPyNUTS
